import Mathlib

/-!
Verification of the Kanban board core (board state, classifier, optimistic
reconciliation, move engine) against its TypeScript source.  The primary
implementation lives in src/unnamed/part_000 (the current component class);
src/KanbanBoard/index.ts is an earlier variant of the same class whose
legacy-data fallback policy differs, and is embedded separately where a claim
compares the two.

Modelling conventions for the shallow embedding:
- JS objects `Record<string, T>` become insertion-ordered association lists
  `List (String × T)`; assignment to an existing key keeps its position,
  assignment to a fresh key appends (matching JS key order).
- JS string truthiness: `x || y` on strings falls back on the empty string,
  `if (s)` is false exactly on the empty string; both are modelled explicitly.
- A field access that would throw a TypeError in JS (reading `.title` or
  pushing to `.taskIds` of an `undefined` lookup) makes the modelled
  operation return `none`; operations that can throw return `Option`.
- `toLowerCase` is modelled by `Char.toLower` on each character, which agrees
  with JS on ASCII data (all status aliases in the configuration are ASCII).
- Timestamps (`new Date().toISOString()`) are passed in as an explicit
  argument, and JSON serialisation of an output object is modelled by the
  structured value itself.
-/

namespace Kanban

/-- Model of `s.toLowerCase()` (ASCII-faithful): lower-case every
character. -/
def jsToLower (s : String) : String := ⟨s.data.map Char.toLower⟩

/-- Model of the JS expression `a || b` for a possibly undefined string `a`:
undefined and the empty string both fall back to `b`. -/
def jsOrStr (a : Option String) (b : String) : String :=
  match a with
  | some s => if s = "" then b else s
  | none => b

/-- Lookup in a JS-object model: first entry with the given key. -/
def lookupM {α : Type} (m : List (String × α)) (k : String) : Option α :=
  (m.find? (fun p => p.1 == k)).map (fun p => p.2)

/-- Assignment `m[k] = v` in a JS-object model: replace in place when the key
exists, append otherwise. -/
def insertM {α : Type} (m : List (String × α)) (k : String) (v : α) :
    List (String × α) :=
  if (m.find? (fun p => p.1 == k)).isSome then
    m.map (fun p => if p.1 == k then (k, v) else p)
  else
    m ++ [(k, v)]

/-- Key list (`Object.keys`) of a JS-object model. -/
def keysM {α : Type} (m : List (String × α)) : List String := m.map (fun p => p.1)

/-- Task record (interface `Task`, part_000 lines 4-19).  Optional TS fields
are `Option`; the transient `isOptimistic` flag reads as `false` when the
property is absent, matching every truthiness test in the source. -/
structure Task where
  id : String
  title : String
  status : String
  priority : Option String := none
  assignedTo : Option String := none
  dueDate : Option String := none
  description : Option String := none
  recordId : Option String := none
  authorFirstName : Option String := none
  authorLastName : Option String := none
  authorEmail : Option String := none
  authorAvatar : Option String := none
  isOptimistic : Bool := false
deriving DecidableEq

/-- Column definition (interface `ColumnDefinition`, part_000 lines 21-26). -/
structure ColumnDefinition where
  id : String
  title : String
  statusValues : List String
  color : Option String := none
deriving DecidableEq

/-- Column projection (interface `Column`, part_000 lines 28-34). -/
structure Column where
  id : String
  title : String
  taskIds : List String
  statusValues : List String
  color : Option String := none
deriving DecidableEq

/-- Board state (interface `BoardData`, part_000 lines 36-40). -/
structure BoardData where
  tasks : List (String × Task)
  columns : List (String × Column)
  columnOrder : List String
deriving DecidableEq

/-- The default column configuration (`getDefaultColumnDefinitions`,
part_000 lines 236-243); `updateColumnDefinitions` always installs it. -/
def defaultColumnDefinitions : List ColumnDefinition :=
  [ { id := "todo", title := "To Do", statusValues := ["Todo", "New", "Open"] },
    { id := "inprogress", title := "In Progress",
      statusValues := ["In Progress", "Active", "Working"] },
    { id := "review", title := "Review",
      statusValues := ["Review", "Testing", "Validation"] },
    { id := "done", title := "Done",
      statusValues := ["Done", "Completed", "Closed"] } ]

/-- Classifier `getColumnIdByStatus` (part_000 lines 716-723): first
definition with a case-insensitive alias match; otherwise
`this._columnDefinitions[0]?.id || null`, where an empty first id is falsy
and yields `null`. -/
def getColumnIdByStatus (defs : List ColumnDefinition) (status : String) :
    Option String :=
  match defs.find? (fun c =>
      c.statusValues.any (fun v => jsToLower v == jsToLower status)) with
  | some c => some c.id
  | none =>
    match defs with
    | [] => none
    | c :: _ => if c.id = "" then none else some c.id

/-- Column map built by `getEmptyBoardData` / `getEmptyBoardDataWithSamples`
(part_000 lines 725-745, 610-623): one entry per definition, empty task list. -/
def emptyColumns (defs : List ColumnDefinition) : List (String × Column) :=
  defs.foldl
    (fun cols d =>
      insertM cols d.id
        { id := d.id, title := d.title, taskIds := [],
          statusValues := d.statusValues, color := d.color })
    []

/-- Empty board (`getEmptyBoardData`, part_000 lines 725-745). -/
def getEmptyBoardData (defs : List ColumnDefinition) : BoardData :=
  { tasks := [], columns := emptyColumns defs, columnOrder := defs.map (fun d => d.id) }

/-- The six built-in sample tasks (part_000 lines 626-701). -/
def sampleTasks : List (String × Task) :=
  [ ("task-1",
     { id := "task-1", title := "Implement new API endpoints", status := "Todo",
       priority := some "high", dueDate := some "Today",
       assignedTo := some "john.smith@company.com",
       authorFirstName := some "John", authorLastName := some "Smith",
       authorEmail := some "john.smith@company.com",
       authorAvatar := some "https://images.unsplash.com/photo-1472099645785-5658abf4ff4e?w=100&h=100&fit=crop&crop=face",
       description := some "Design and implement RESTful API endpoints for the new user management module. Ensure proper authentication, validation, and error handling are in place. Documentation must be updated with Swagger examples and response schemas." }),
    ("task-2",
     { id := "task-2", title := "Fix user interface bug", status := "In Progress",
       priority := some "medium", dueDate := some "Tomorrow",
       assignedTo := some "mary.johnson@company.com",
       authorFirstName := some "Mary", authorLastName := some "Johnson",
       authorEmail := some "mary.johnson@company.com",
       description := some "Investigate the alignment issue on the dashboard where the navigation bar overlaps with the content area on mobile devices. Fix the CSS media queries and verify across different screen sizes to ensure a responsive layout." }),
    ("task-3",
     { id := "task-3", title := "Update documentation", status := "Review",
       priority := some "low", dueDate := some "Next week",
       assignedTo := some "sarah.wilson@company.com",
       authorFirstName := some "Sarah", authorLastName := some "Wilson",
       authorEmail := some "sarah.wilson@company.com",
       authorAvatar := some "https://images.unsplash.com/photo-1494790108755-2616b612c3c5?w=100&h=100&fit=crop&crop=face",
       description := some "Review and update the project README and internal developer guides. Include instructions for setting up the local environment and running the new test suite. Ensure all deprecated API references are removed." }),
    ("task-4",
     { id := "task-4", title := "Test new features", status := "Done",
       priority := some "high", dueDate := some "Yesterday",
       assignedTo := some "mike.davis@company.com",
       authorFirstName := some "Mike", authorLastName := some "Davis",
       authorEmail := some "mike.davis@company.com",
       description := some "Execute the regression test suite for the payment gateway integration. Log any defects found in the issue tracker and verify fixes for previously reported critical bugs. Generate a final test report for the release." }),
    ("task-5",
     { id := "task-5", title := "Prepare client presentation", status := "Todo",
       priority := some "medium", dueDate := some "Friday",
       assignedTo := some "anna.brown@company.com",
       authorFirstName := some "Anna", authorLastName := some "Brown",
       authorEmail := some "anna.brown@company.com",
       authorAvatar := some "https://images.unsplash.com/photo-1438761681033-6461ffad8d80?w=100&h=100&fit=crop&crop=face",
       description := some "Create a slide deck for the Q3 progress review with the client. Highlight key milestones achieved, budget utilization, and upcoming risks. Practice the demo flow to ensure a smooth presentation during the meeting." }),
    ("task-6",
     { id := "task-6", title := "Code review and merge requests", status := "In Progress",
       priority := some "low", dueDate := some "Monday",
       assignedTo := some "david.taylor@company.com",
       authorFirstName := some "David", authorLastName := some "Taylor",
       authorEmail := some "david.taylor@company.com" }) ]

/-- Assignment `columns[k].taskIds = ids`; `none` models the TypeError thrown
when the column key is absent. -/
def setColTaskIds (cols : List (String × Column)) (k : String)
    (ids : List String) : Option (List (String × Column)) :=
  (lookupM cols k).map (fun c => insertM cols k { c with taskIds := ids })

/-- Sample board (`getEmptyBoardDataWithSamples`, part_000 lines 610-714):
columns from the definitions, the six sample tasks, and the four hard-coded
task-list assignments (which throw when a default column id is missing). -/
def getEmptyBoardDataWithSamples (defs : List ColumnDefinition) :
    Option BoardData := do
  let cols0 := emptyColumns defs
  let cols1 ← setColTaskIds cols0 "todo" ["task-1", "task-5"]
  let cols2 ← setColTaskIds cols1 "inprogress" ["task-2", "task-6"]
  let cols3 ← setColTaskIds cols2 "review" ["task-3"]
  let cols4 ← setColTaskIds cols3 "done" ["task-4"]
  some { tasks := sampleTasks, columns := cols4, columnOrder := defs.map (fun d => d.id) }

/-- One dataset record: formatted field values by alias.  The `getValue`
helper in the source wraps `record.getFormattedValue` in try/catch and
returns the empty string on any failure, so a record is just its readable
fields. -/
structure DataRecord where
  fields : List (String × String)
deriving DecidableEq

/-- Dataset parameter surface used by the source: `loading`,
`sortedRecordIds` and the record map. -/
structure Dataset where
  loading : Bool
  sortedRecordIds : Option (List String)
  records : List (String × DataRecord)
deriving DecidableEq

/-- Field read `getValue(alias)` for a record id (part_000 lines 514-522):
a missing record or missing/throwing field reads as the empty string. -/
def getValue (records : List (String × DataRecord)) (rid al : String) :
    String :=
  match lookupM records rid with
  | some r => (lookupM r.fields al).getD ""
  | none => ""

/-- Harness mock detection (part_000 lines 526-530): skip a record whose
title and status both read as the sentinel value. -/
def isHarnessMock (records : List (String × DataRecord)) (rid : String) : Bool :=
  getValue records rid "title" == "val" && getValue records rid "status" == "val"

/-- Task built from one dataset record (part_000 lines 532-542), with the
JS string-or fallbacks for id, title and status. -/
def buildTask (records : List (String × DataRecord)) (rid : String) : Task :=
  { id := jsOrStr (some (getValue records rid "id")) rid,
    title := jsOrStr (some (getValue records rid "title")) "Untitled",
    status := jsOrStr (some (getValue records rid "status")) "Unknown",
    priority := some (getValue records rid "priority"),
    assignedTo := some (getValue records rid "assignedto"),
    dueDate := some (getValue records rid "duedate"),
    description := some (getValue records rid "description"),
    recordId := some rid,
    authorFirstName := some (getValue records rid "authorFirstNameField") }

/-- The resolved map key of a dataset record: `getValue('id') || recordId`. -/
def resolvedId (records : List (String × DataRecord)) (rid : String) : String :=
  (buildTask records rid).id

/-- The optimistic check of `loadFromDataset` (part_000 lines 544-559),
expressed as the per-id reconciliation rule it implements: `prev` is the
previously held task for the incoming id (if any), `t0` the freshly built
incoming task. -/
def reconcileTask (prev : Option Task) (t0 : Task) : Task :=
  match prev with
  | some p =>
    if p.isOptimistic then
      if p.status ≠ t0.status then { t0 with status := p.status, isOptimistic := true }
      else { t0 with isOptimistic := false }
    else t0
  | none => t0

/-- Push of a task id onto `columns[cid].taskIds`; `none` models the
TypeError thrown when the column key is absent. -/
def pushToColumn (cols : List (String × Column)) (cid tid : String) :
    Option (List (String × Column)) :=
  (lookupM cols cid).map (fun c => insertM cols cid { c with taskIds := c.taskIds ++ [tid] })

/-- Column assignment of one dataset record (part_000 lines 564-575): push to
the classified column when that id is truthy and present, otherwise to the
first column of `columnOrder` when that id is truthy (this second access is
unguarded in the source and throws when the column is missing). -/
def assignToColumn (defs : List ColumnDefinition) (columnOrder : List String)
    (cols : List (String × Column)) (tid : String) (status : String) :
    Option (List (String × Column)) :=
  let fallback : Option (List (String × Column)) :=
    match columnOrder.head? with
    | none => some cols
    | some f => if f = "" then some cols else pushToColumn cols f tid
  match getColumnIdByStatus defs status with
  | some cid =>
    if cid = "" then fallback
    else
      match lookupM cols cid with
      | some c => some (insertM cols cid { c with taskIds := c.taskIds ++ [tid] })
      | none => fallback
  | none => fallback

/-- One iteration of the `sortedRecordIds.forEach` loop of `loadFromDataset`
(part_000 lines 510-576): skip harness mocks, build and reconcile the task,
store it in the fresh task map, and push its id onto a column. -/
def datasetStep (defs : List ColumnDefinition) (prevTasks : List (String × Task))
    (columnOrder : List String) (records : List (String × DataRecord))
    (acc : List (String × Task) × List (String × Column)) (rid : String) :
    Option (List (String × Task) × List (String × Column)) :=
  if isHarnessMock records rid then some acc
  else
    let t := reconcileTask (lookupM prevTasks (resolvedId records rid))
      (buildTask records rid)
    let newTasks := insertM acc.1 t.id t
    (assignToColumn defs columnOrder acc.2 t.id t.status).map
      (fun cols => (newTasks, cols))

/-- Clearing `columns[colId].taskIds = []` for every key (part_000
lines 502-504). -/
def clearColumns (cols : List (String × Column)) : List (String × Column) :=
  cols.map (fun p => (p.1, { p.2 with taskIds := [] }))

/-- `loadFromDataset` (part_000 lines 497-579): clear every column, return
early when the dataset or its id list is absent (leaving the old task map in
place), otherwise process each record and install the freshly built task
map. -/
def loadFromDataset (defs : List ColumnDefinition) (b : BoardData)
    (ds : Option Dataset) : Option BoardData :=
  let cols0 := clearColumns b.columns
  match ds with
  | none => some { b with columns := cols0 }
  | some d =>
    match d.sortedRecordIds with
    | none => some { b with columns := cols0 }
    | some rids =>
      (rids.foldlM (datasetStep defs b.tasks b.columnOrder d.records) ([], cols0)).map
        (fun acc => { b with tasks := acc.1, columns := acc.2 })

/-- Parsed legacy JSON object: the three board fields it may carry (a JSON
object spread over the empty board only overrides the keys it defines). -/
structure LegacyBundle where
  tasks : Option (List (String × Task)) := none
  columns : Option (List (String × Column)) := none
  columnOrder : Option (List String) := none
deriving DecidableEq

/-- Outcome of `JSON.parse` on the legacy property: an object, an array of
tasks, or a parse failure. -/
inductive LegacyInput where
  | malformed
  | obj (p : LegacyBundle)
  | arr (ts : List Task)
deriving DecidableEq

/-- The spread `{ ...base, ...parsedData }` for an object-shaped bundle. -/
def spreadOver (base : BoardData) (p : LegacyBundle) : BoardData :=
  { tasks := p.tasks.getD base.tasks,
    columns := p.columns.getD base.columns,
    columnOrder := p.columnOrder.getD base.columnOrder }

/-- One iteration of the flat-array branch of `loadFromLegacyData`
(part_000 lines 594-599): store the task, then push its id onto the
classified column when that id is truthy (the push is unguarded in the
source and throws when the column key is absent). -/
def legacyFlatStep (defs : List ColumnDefinition) (b : BoardData) (t : Task) :
    Option BoardData :=
  let b1 : BoardData := { b with tasks := insertM b.tasks t.id t }
  match getColumnIdByStatus defs t.status with
  | some cid =>
    if cid = "" then some b1
    else (pushToColumn b1.columns cid t.id).map (fun cols => { b1 with columns := cols })
  | none => some b1

/-- `loadFromLegacyData` of the primary implementation (part_000
lines 581-608): a full bundle and any other object shape are both spread
over the empty board (lines 589 and 602 are the same expression), an array
is folded task by task over the empty board, and a parse failure leaves the
previous board untouched. -/
def loadFromLegacyData (defs : List ColumnDefinition) (b : BoardData)
    (input : LegacyInput) : Option BoardData :=
  match input with
  | .malformed => some b
  | .obj p => some (spreadOver (getEmptyBoardData defs) p)
  | .arr ts => ts.foldlM (legacyFlatStep defs) (getEmptyBoardData defs)

/-- `loadFromLegacyData` of the earlier variant (src/KanbanBoard/index.ts
lines 363-371): every successfully parsed value is spread over the empty
board (an array spread contributes only numeric keys, so the board fields
stay those of the empty board), and a parse failure loads the sample
board. -/
def loadFromLegacyDataIndex (defs : List ColumnDefinition) (_b : BoardData)
    (input : LegacyInput) : Option BoardData :=
  match input with
  | .malformed => getEmptyBoardDataWithSamples defs
  | .obj p => some (spreadOver (getEmptyBoardData defs) p)
  | .arr _ => some (getEmptyBoardData defs)

/-- The dataset-availability test of `loadData` (part_000 line 475):
`dataSet && dataSet.loading === false && dataSet.sortedRecordIds &&
dataSet.sortedRecordIds.length > 0`. -/
def datasetAvailable (ds : Option Dataset) : Bool :=
  match ds with
  | some d =>
    !d.loading &&
      (match d.sortedRecordIds with
       | some l => decide (0 < l.length)
       | none => false)
  | none => false

/-- `loadData` (part_000 lines 468-495): try the dataset (falling back to
the sample board when it yields zero tasks), else the legacy JSON property
when its raw value is truthy, else the sample board. -/
def loadData (defs : List ColumnDefinition) (b : BoardData)
    (ds : Option Dataset) (legacy : Option LegacyInput) : Option BoardData :=
  if datasetAvailable ds then do
    let b1 ← loadFromDataset defs b ds
    if b1.tasks.length = 0 then getEmptyBoardDataWithSamples defs else some b1
  else
    match legacy with
    | some input => loadFromLegacyData defs b input
    | none => getEmptyBoardDataWithSamples defs

/-- Result of one `moveTask` call: the board afterwards, the last-updated
marker afterwards, and how many times `_notifyOutputChanged` fired. -/
structure MoveResult where
  board : BoardData
  lastUpdatedTask : Option String
  notifications : Nat
deriving DecidableEq

/-- `moveTask` (part_000 lines 1632-1660): no-op when source equals target
or any of the two columns or the task is unresolved; otherwise splice the
first occurrence of the id out of the source list, push it onto the target
list, set the status to `statusValues[0] || title` of the target, flag the
task optimistic, record the marker and notify once. -/
def moveTask (taskId srcId tgtId : String) (b : BoardData)
    (lastUpd : Option String) : MoveResult :=
  if srcId = tgtId then ⟨b, lastUpd, 0⟩
  else
    match lookupM b.columns srcId, lookupM b.columns tgtId, lookupM b.tasks taskId with
    | some src, some tgt, some t =>
      let cols1 := insertM b.columns srcId { src with taskIds := src.taskIds.erase taskId }
      let cols2 := insertM cols1 tgtId { tgt with taskIds := tgt.taskIds ++ [taskId] }
      let newStatus := jsOrStr tgt.statusValues.head? tgt.title
      let t1 : Task := { t with status := newStatus, isOptimistic := true }
      ⟨{ tasks := insertM b.tasks taskId t1, columns := cols2, columnOrder := b.columnOrder },
        some taskId, 1⟩
    | _, _, _ => ⟨b, lastUpd, 0⟩

/-- The serialised `lastMovedTask` change event (part_000 lines 1668-1674). -/
structure LastMovedEvent where
  taskId : String
  newStatus : String
  previousStatus : String
  title : String
  timestamp : String
deriving DecidableEq

/-- The output object of `getOutputs` (part_000 lines 1666-1675); the empty
`lastMovedTask` string is `none`. -/
structure Outputs where
  updatedTasksData : BoardData
  lastMovedTask : Option LastMovedEvent
deriving DecidableEq

/-- `getOutputs` (part_000 lines 1662-1676).  The last-updated marker and the
drag-session source column are read from the instance state; the timestamp
argument stands for `new Date().toISOString()`.  A truthy source column id
whose key is missing from the board makes the title read throw, hence
`none`. -/
def getOutputs (b : BoardData) (lastUpdatedTask : Option String)
    (sourceColumnId : Option String) (now : String) : Option Outputs :=
  let lastMoved : Option Task :=
    match lastUpdatedTask with
    | some tid => if tid = "" then none else lookupM b.tasks tid
    | none => none
  match lastMoved with
  | none => some { updatedTasksData := b, lastMovedTask := none }
  | some t =>
    let prev : Option String :=
      match sourceColumnId with
      | none => some ""
      | some sc => if sc = "" then some "" else (lookupM b.columns sc).map (fun c => c.title)
    prev.map (fun ps =>
      { updatedTasksData := b,
        lastMovedTask := some
          { taskId := jsOrStr t.recordId t.id, newStatus := t.status,
            previousStatus := ps, title := t.title, timestamp := now } })

/-- Mutable instance state touched by the core (part_000 lines 55-60). -/
structure CompState where
  board : BoardData
  draggedTaskId : Option String
  sourceColumnId : Option String
  lastUpdatedTask : Option String
  pendingUpdate : Bool
deriving DecidableEq

/-- State after construction (part_000 lines 164-166): the board is built
from the still-empty definition list, so it has no columns; the drag session
and the last-updated marker are null. -/
def initialState : CompState :=
  { board := getEmptyBoardData [], draggedTaskId := none, sourceColumnId := none,
    lastUpdatedTask := none, pendingUpdate := false }

/-- The operations that mutate the instance state: a data (re)load
(`loadData`, run by init and updateView with the default definitions), the
dragstart and dragend handlers (part_000 lines 2147-2175), the drop handler
(part_000 lines 2201-2224) and a direct `moveTask` call. -/
inductive Op where
  | load (ds : Option Dataset) (legacy : Option LegacyInput)
  | dragStart (taskId colId : Option String)
  | dragEnd
  | drop (targetColumnId : Option String)
  | move (taskId srcId tgtId : String)
deriving DecidableEq

/-- Effect of one operation on the instance state (`none` models a thrown
exception during a load). -/
def stepOp (s : CompState) : Op → Option CompState
  | .load ds legacy =>
    (loadData defaultColumnDefinitions s.board ds legacy).map
      (fun b => { s with board := b })
  | .dragStart taskId colId =>
    some { s with draggedTaskId := taskId, sourceColumnId := colId }
  | .dragEnd => some { s with draggedTaskId := none, sourceColumnId := none }
  | .drop target =>
    match s.draggedTaskId with
    | none => some s
    | some tid =>
      if tid = "" then some s
      else
        match s.sourceColumnId with
        | none => some s
        | some src =>
          if src = "" then some s
          else
            match target with
            | none => some s
            | some tgt =>
              if tgt = "" then some s
              else if src = tgt then some s
              else
                let r := moveTask tid src tgt s.board s.lastUpdatedTask
                some { s with
                        board := r.board
                        lastUpdatedTask := r.lastUpdatedTask
                        pendingUpdate := s.pendingUpdate || decide (0 < r.notifications) }
  | .move taskId srcId tgtId =>
    let r := moveTask taskId srcId tgtId s.board s.lastUpdatedTask
    some { s with
            board := r.board
            lastUpdatedTask := r.lastUpdatedTask
            pendingUpdate := s.pendingUpdate || decide (0 < r.notifications) }

/-- Running a sequence of operations from a starting state. -/
def runOps (s : CompState) (ops : List Op) : Option CompState :=
  ops.foldlM stepOp s

/-! Helper lemmas about the JS-object model. -/

theorem lookupM_cons {α : Type} (p : String × α) (m : List (String × α)) (k : String) :
    lookupM (p :: m) k = if p.1 == k then some p.2 else lookupM m k := by
  by_cases h : p.1 == k <;> simp [lookupM, List.find?, h]

theorem lookupM_map_insert_self {α : Type} (m : List (String × α)) (k : String) (v : α)
    (h : (lookupM m k).isSome) :
    lookupM (m.map (fun p => if p.1 == k then (k, v) else p)) k = some v := by
  induction m with
  | nil => simp [lookupM] at h
  | cons p rest ih =>
    rw [lookupM_cons] at h
    cases hp : (p.1 == k) with
    | true =>
      simp only [List.map_cons, if_pos hp]
      rw [lookupM_cons]
      simp
    | false =>
      simp only [hp] at h
      simp only [List.map_cons, hp, Bool.false_eq_true, if_false, lookupM_cons]
      simp only [Bool.false_eq_true, if_false] at h
      exact ih h

theorem lookupM_map_insert_ne {α : Type} (m : List (String × α)) (k k' : String) (v : α)
    (h : k' ≠ k) :
    lookupM (m.map (fun p => if p.1 == k then (k, v) else p)) k' = lookupM m k' := by
  induction m with
  | nil => rfl
  | cons p rest ih =>
    cases hp : (p.1 == k) with
    | true =>
      have hpk : p.1 = k := by simpa using hp
      have hkk : ¬(k == k') = true := by simp; exact fun hh => h hh.symm
      simp only [List.map_cons, hp, if_true, lookupM_cons, hpk, hkk]
      simpa [hkk] using ih
    | false =>
      simp only [List.map_cons, hp, Bool.false_eq_true, if_false, lookupM_cons]
      cases hp' : (p.1 == k') with
      | true => simp
      | false => simpa using ih

theorem lookupM_append_single_ne {α : Type} (m : List (String × α)) (k k' : String) (v : α)
    (h : k' ≠ k) : lookupM (m ++ [(k, v)]) k' = lookupM m k' := by
  induction m with
  | nil =>
    rw [List.nil_append, lookupM_cons]
    have hkk : ¬(k == k') = true := by simp; exact fun hh => h hh.symm
    simp [hkk, lookupM]
  | cons p rest ih =>
    rw [List.cons_append, lookupM_cons, lookupM_cons]
    cases hp : (p.1 == k') with
    | true => simp [hp]
    | false => simp [hp, ih]

theorem lookupM_insertM_self {α : Type} (m : List (String × α)) (k : String) (v : α) :
    lookupM (insertM m k v) k = some v := by
  unfold insertM
  by_cases h : ((m.find? (fun p => p.1 == k)).isSome)
  · rw [if_pos h]
    apply lookupM_map_insert_self
    simpa [lookupM, Option.isSome_map] using h
  · rw [if_neg h]
    have hnone : m.find? (fun p => p.1 == k) = none := Option.not_isSome_iff_eq_none.mp h
    clear h
    induction m with
    | nil => simp [lookupM, List.find?]
    | cons p rest ih =>
      rw [List.find?_cons] at hnone
      rw [List.cons_append, lookupM_cons]
      cases hp : (p.1 == k) with
      | true => simp [hp] at hnone
      | false =>
        simp only [hp] at hnone
        simp only [hp, Bool.false_eq_true, if_false]
        exact ih hnone

theorem lookupM_insertM_ne {α : Type} (m : List (String × α)) (k k' : String) (v : α)
    (h : k' ≠ k) : lookupM (insertM m k v) k' = lookupM m k' := by
  unfold insertM
  split
  · exact lookupM_map_insert_ne m k k' v h
  · exact lookupM_append_single_ne m k k' v h

theorem mem_insertM {α : Type} (m : List (String × α)) (k : String) (v : α)
    (q : String × α) (hq : q ∈ insertM m k v) : q = (k, v) ∨ q ∈ m := by
  unfold insertM at hq
  split at hq
  · rcases List.mem_map.mp hq with ⟨p, hp, hpq⟩
    cases hk : (p.1 == k) with
    | true => left; rw [if_pos hk] at hpq; exact hpq.symm
    | false =>
      right
      rw [hk] at hpq
      simp only [Bool.false_eq_true, if_false] at hpq
      exact hpq ▸ hp
  · rcases List.mem_append.mp hq with h | h
    · right; exact h
    · left; simpa using h

theorem keysM_map_insert {α : Type} (m : List (String × α)) (k : String) (v : α) :
    keysM (m.map (fun p => if p.1 == k then (k, v) else p)) = keysM m := by
  unfold keysM
  rw [List.map_map]
  apply List.map_congr_left
  intro p _
  cases hp : (p.1 == k) with
  | true =>
    have hpk : p.1 = k := by simpa using hp
    simp [hp, hpk]
  | false =>
    have hn : p.1 ≠ k := by simpa using hp
    simp [hn]

theorem keysM_insertM_of_isSome {α : Type} (m : List (String × α)) (k : String) (v : α)
    (h : (lookupM m k).isSome) : keysM (insertM m k v) = keysM m := by
  unfold insertM
  have hfind : (m.find? (fun p => p.1 == k)).isSome := by
    simpa [lookupM, Option.isSome_map] using h
  rw [if_pos hfind]
  exact keysM_map_insert m k v

theorem keysM_nodup_insertM {α : Type} (m : List (String × α)) (k : String) (v : α)
    (h : (keysM m).Nodup) : (keysM (insertM m k v)).Nodup := by
  unfold insertM
  by_cases hf : ((m.find? (fun p => p.1 == k)).isSome)
  · rw [if_pos hf, keysM_map_insert]
    exact h
  · rw [if_neg hf]
    have hnone : m.find? (fun p => p.1 == k) = none := Option.not_isSome_iff_eq_none.mp hf
    unfold keysM at h ⊢
    rw [List.map_append, List.nodup_append]
    refine ⟨h, by simp, ?_⟩
    intro x hx hx2
    simp only [List.map_cons, List.map_nil, List.mem_singleton] at hx2
    subst hx2
    rcases List.mem_map.mp hx with ⟨p, hp, hpk⟩
    have := List.find?_eq_none.mp hnone p hp
    simp [hpk] at this

theorem lookupM_isSome_insertM {α : Type} (m : List (String × α)) (k k' : String) (v : α)
    (h : (lookupM m k').isSome) : (lookupM (insertM m k v) k').isSome := by
  by_cases hk : k' = k
  · subst hk; rw [lookupM_insertM_self]; rfl
  · rw [lookupM_insertM_ne _ _ _ _ hk]; exact h

/-- Explicit form of a `moveTask` call that passes every guard. -/
theorem moveTask_success (b : BoardData) (taskId srcId tgtId : String)
    (lastUpd : Option String) (src tgt : Column) (t : Task)
    (hne : srcId ≠ tgtId)
    (hsrc : lookupM b.columns srcId = some src)
    (htgt : lookupM b.columns tgtId = some tgt)
    (ht : lookupM b.tasks taskId = some t) :
    moveTask taskId srcId tgtId b lastUpd =
      ⟨{ tasks := insertM b.tasks taskId
           { t with status := jsOrStr tgt.statusValues.head? tgt.title, isOptimistic := true },
         columns := insertM (insertM b.columns srcId
             { src with taskIds := src.taskIds.erase taskId }) tgtId
           { tgt with taskIds := tgt.taskIds ++ [taskId] },
         columnOrder := b.columnOrder },
        some taskId, 1⟩ := by
  unfold moveTask
  rw [if_neg hne, hsrc, htgt, ht]

/-- A small concrete board shared by several witnesses. -/
def exampleBoard : BoardData :=
  { tasks := [("t1", { id := "t1", title := "T1", status := "Todo" })],
    columns :=
      [("todo", { id := "todo", title := "To Do", taskIds := ["t1"],
                  statusValues := ["Todo"] }),
       ("done", { id := "done", title := "Done", taskIds := [],
                  statusValues := ["Done", "Completed"] })],
    columnOrder := ["todo", "done"] }

/-- Board refuting claim C1 as stated: the target column declares the empty
string as its first status alias. -/
def boardEmptyAlias : BoardData :=
  { tasks := [("t1", { id := "t1", title := "T1", status := "Todo" })],
    columns :=
      [("todo", { id := "todo", title := "To Do", taskIds := ["t1"],
                  statusValues := ["Todo"] }),
       ("done", { id := "done", title := "Done", taskIds := [],
                  statusValues := [""] })],
    columnOrder := ["todo", "done"] }

/-- Claim C1, counterexample.  In `boardEmptyAlias` the task, the source and
the target all resolve and the columns differ, and the target column has the
first status alias `""`; the claim then demands that the moved task gets
status `""`, but `statusValues[0] || title` in the source is falsy on the
empty string and the code assigns the column title `"Done"` instead. -/
theorem C1_counterexample :
    lookupM boardEmptyAlias.columns "done" =
      some { id := "done", title := "Done", taskIds := [], statusValues := [""] } ∧
    (lookupM (moveTask "t1" "todo" "done" boardEmptyAlias none).board.tasks "t1").map
        Task.status = some "Done" ∧
    ¬((lookupM (moveTask "t1" "todo" "done" boardEmptyAlias none).board.tasks "t1").map
        Task.status = some "") := by
  refine ⟨by decide, by decide, by decide⟩

/-- Claim C1 (amended): for every board in which the task exists, the source
and target columns exist, and the source differs from the target,
`moveTask` removes the first occurrence of the id from the source list,
appends it to the target list, sets the status to the target column's first
status alias — falling back to the column title when the column declares no
aliases or when its first alias is the empty string — flags the task
optimistic and fires exactly one change notification. -/
theorem C1_moveTask_effects (b : BoardData) (taskId srcId tgtId : String)
    (lastUpd : Option String) (src tgt : Column) (t : Task)
    (hne : srcId ≠ tgtId)
    (hsrc : lookupM b.columns srcId = some src)
    (htgt : lookupM b.columns tgtId = some tgt)
    (ht : lookupM b.tasks taskId = some t) :
    lookupM (moveTask taskId srcId tgtId b lastUpd).board.columns srcId =
      some { src with taskIds := src.taskIds.erase taskId } ∧
    lookupM (moveTask taskId srcId tgtId b lastUpd).board.columns tgtId =
      some { tgt with taskIds := tgt.taskIds ++ [taskId] } ∧
    lookupM (moveTask taskId srcId tgtId b lastUpd).board.tasks taskId =
      some { t with
              status :=
                match tgt.statusValues with
                | [] => tgt.title
                | v :: _ => if v = "" then tgt.title else v,
              isOptimistic := true } ∧
    (moveTask taskId srcId tgtId b lastUpd).notifications = 1 := by
  rw [moveTask_success b taskId srcId tgtId lastUpd src tgt t hne hsrc htgt ht]
  have hstatus : jsOrStr tgt.statusValues.head? tgt.title =
      (match tgt.statusValues with
       | [] => tgt.title
       | v :: _ => if v = "" then tgt.title else v) := by
    cases tgt.statusValues with
    | nil => rfl
    | cons v rest => rfl
  refine ⟨?_, ?_, ?_, rfl⟩
  · rw [lookupM_insertM_ne _ _ _ _ hne, lookupM_insertM_self]
  · rw [lookupM_insertM_self]
  · rw [lookupM_insertM_self, hstatus]

/-- Claim C1 (amended), witness: the effects at a concrete move. -/
theorem C1_witness :
    lookupM (moveTask "t1" "todo" "done" exampleBoard none).board.columns "todo" =
      some { id := "todo", title := "To Do", taskIds := [], statusValues := ["Todo"] } ∧
    lookupM (moveTask "t1" "todo" "done" exampleBoard none).board.columns "done" =
      some { id := "done", title := "Done", taskIds := ["t1"],
             statusValues := ["Done", "Completed"] } ∧
    lookupM (moveTask "t1" "todo" "done" exampleBoard none).board.tasks "t1" =
      some { id := "t1", title := "T1", status := "Done", isOptimistic := true } ∧
    (moveTask "t1" "todo" "done" exampleBoard none).notifications = 1 := by
  have h := C1_moveTask_effects exampleBoard "t1" "todo" "done" none
    { id := "todo", title := "To Do", taskIds := ["t1"], statusValues := ["Todo"] }
    { id := "done", title := "Done", taskIds := [], statusValues := ["Done", "Completed"] }
    { id := "t1", title := "T1", status := "Todo" }
    (by decide) (by decide) (by decide) (by decide)
  simpa using h

/-- Claim C4: when the source and target coincide, or the source column, the
target column or the task cannot be resolved, `moveTask` returns the board
unchanged (hence deep-equal to its input), leaves the marker alone and emits
no change notification. -/
theorem C4_moveTask_noop (b : BoardData) (taskId srcId tgtId : String)
    (lastUpd : Option String)
    (h : srcId = tgtId ∨ lookupM b.columns srcId = none ∨
      lookupM b.columns tgtId = none ∨ lookupM b.tasks taskId = none) :
    moveTask taskId srcId tgtId b lastUpd = ⟨b, lastUpd, 0⟩ := by
  unfold moveTask
  by_cases he : srcId = tgtId
  · rw [if_pos he]
  · rw [if_neg he]
    rcases h with h | h | h | h
    · exact absurd h he
    · rw [h]
    · rw [h]
      rcases lookupM b.columns srcId with _ | src <;> rfl
    · rw [h]
      rcases lookupM b.columns srcId with _ | src <;>
        rcases lookupM b.columns tgtId with _ | tgt <;> rfl

/-- Claim C4, witness: a same-column move on a concrete board is a no-op. -/
theorem C4_witness :
    moveTask "t1" "todo" "todo" exampleBoard none = ⟨exampleBoard, none, 0⟩ :=
  C4_moveTask_noop exampleBoard "t1" "todo" "todo" none (Or.inl rfl)

/-- Definition list refuting claim C5 as stated: the single definition has
the empty string as its id. -/
def defsEmptyId : List ColumnDefinition :=
  [{ id := "", title := "A", statusValues := ["x"] }]

/-- Claim C5, counterexample.  With a non-empty definition list whose first
definition has the empty id and a status matching no alias, the claim
demands the id of the first definition (`some ""`), but
`_columnDefinitions[0]?.id || null` is falsy on the empty string and the
code returns the no-column signal instead. -/
theorem C5_counterexample :
    getColumnIdByStatus defsEmptyId "y" = none ∧
    getColumnIdByStatus defsEmptyId "y" ≠ some "" ∧
    defsEmptyId ≠ [] := by
  refine ⟨by decide, by decide, by decide⟩

/-- Claim C5 (amended): classification returns the id of the first
definition, in configured order, one of whose aliases equals the status
case-insensitively; when no definition matches it returns the id of the
first definition provided that id is non-empty (an empty first id, like an
empty definition list, yields the explicit no-column signal); and
`classify("DONE", defs)` equals `classify("done", defs)` on every
definition list.  The function is a total Lean function, hence
deterministic and non-raising. -/
theorem C5_classifier (status : String) :
    (∀ defs : List ColumnDefinition,
      (∀ d ∈ defs, ∀ v ∈ d.statusValues, jsToLower v ≠ jsToLower status) →
        getColumnIdByStatus defs status =
          (match defs with
           | [] => none
           | c :: _ => if c.id = "" then none else some c.id)) ∧
    (∀ (pre post : List ColumnDefinition) (d : ColumnDefinition),
      (∃ v ∈ d.statusValues, jsToLower v = jsToLower status) →
      (∀ d' ∈ pre, ∀ v ∈ d'.statusValues, jsToLower v ≠ jsToLower status) →
        getColumnIdByStatus (pre ++ d :: post) status = some d.id) ∧
    (∀ defs : List ColumnDefinition,
      getColumnIdByStatus defs "DONE" = getColumnIdByStatus defs "done") := by
  refine ⟨?_, ?_, ?_⟩
  · intro defs h
    unfold getColumnIdByStatus
    have hfind : defs.find?
        (fun c => c.statusValues.any (fun v => jsToLower v == jsToLower status)) = none := by
      rw [List.find?_eq_none]
      intro c hc
      simp only [Bool.not_eq_true, List.any_eq_false]
      intro v hv
      rw [beq_eq_false_iff_ne]
      exact h c hc v hv
    rw [hfind]
  · intro pre post d hd hpre
    unfold getColumnIdByStatus
    have hfindpre : pre.find?
        (fun c => c.statusValues.any (fun v => jsToLower v == jsToLower status)) = none := by
      rw [List.find?_eq_none]
      intro c hc
      simp only [Bool.not_eq_true, List.any_eq_false]
      intro v hv
      rw [beq_eq_false_iff_ne]
      exact hpre c hc v hv
    have hdmatch : (d.statusValues.any (fun v => jsToLower v == jsToLower status)) = true := by
      rcases hd with ⟨v, hv, hveq⟩
      simp only [List.any_eq_true]
      exact ⟨v, hv, by simpa using hveq⟩
    rw [List.find?_append, hfindpre]
    simp only [Option.none_or, List.find?_cons, hdmatch]
  · intro defs
    have h1 : jsToLower "DONE" = "done" := by decide
    have h2 : jsToLower "done" = "done" := by decide
    unfold getColumnIdByStatus
    rw [show (fun c : ColumnDefinition =>
        c.statusValues.any (fun v => jsToLower v == jsToLower "DONE")) =
        (fun c : ColumnDefinition =>
        c.statusValues.any (fun v => jsToLower v == jsToLower "done")) from by
      funext c
      rw [h1, h2]]

/-- Claim C5 (amended), witness: concrete classifications under the default
definitions. -/
theorem C5_witness :
    getColumnIdByStatus defaultColumnDefinitions "zzz" = some "todo" ∧
    getColumnIdByStatus defaultColumnDefinitions "DONE" =
      getColumnIdByStatus defaultColumnDefinitions "done" := by
  constructor
  · have h := (C5_classifier "zzz").1 defaultColumnDefinitions (by decide)
    simpa using h
  · exact (C5_classifier "zzz").2.2 defaultColumnDefinitions

/-- Claim C8: after every successful `moveTask`, the change event serialised
by `getOutputs` carries the moved task's identity preferring the
external-store `recordId` over the local id, the task's new status, the
source column's title as the human-readable `previousStatus`, the task's
title and the supplied timestamp.  The two non-emptiness hypotheses hold at
the only call site of `moveTask`, the drop handler, which ignores drops
whose captured task id or source column id is falsy (part_000
lines 2207-2214). -/
theorem C8_change_event (b : BoardData) (taskId srcId tgtId : String)
    (lastUpd : Option String) (src tgt : Column) (t : Task) (now : String)
    (hne : srcId ≠ tgtId)
    (hsrc : lookupM b.columns srcId = some src)
    (htgt : lookupM b.columns tgtId = some tgt)
    (ht : lookupM b.tasks taskId = some t)
    (htid : taskId ≠ "")
    (hsid : srcId ≠ "") :
    getOutputs (moveTask taskId srcId tgtId b lastUpd).board
        (moveTask taskId srcId tgtId b lastUpd).lastUpdatedTask (some srcId) now =
      some { updatedTasksData := (moveTask taskId srcId tgtId b lastUpd).board,
             lastMovedTask := some
               { taskId := jsOrStr t.recordId t.id,
                 newStatus := jsOrStr tgt.statusValues.head? tgt.title,
                 previousStatus := src.title,
                 title := t.title,
                 timestamp := now } } := by
  rw [moveTask_success b taskId srcId tgtId lastUpd src tgt t hne hsrc htgt ht]
  unfold getOutputs
  dsimp only
  rw [if_neg htid, lookupM_insertM_self]
  dsimp only
  rw [if_neg hsid, lookupM_insertM_ne _ _ _ _ hne, lookupM_insertM_self]
  rfl

/-- Claim C8, witness: the event of a concrete successful move. -/
theorem C8_witness :
    getOutputs (moveTask "t1" "todo" "done" exampleBoard none).board
        (moveTask "t1" "todo" "done" exampleBoard none).lastUpdatedTask
        (some "todo") "2024-01-01T00:00:00Z" =
      some { updatedTasksData := (moveTask "t1" "todo" "done" exampleBoard none).board,
             lastMovedTask := some
               { taskId := "t1", newStatus := "Done", previousStatus := "To Do",
                 title := "T1", timestamp := "2024-01-01T00:00:00Z" } } := by
  have h := C8_change_event exampleBoard "t1" "todo" "done" none
    { id := "todo", title := "To Do", taskIds := ["t1"], statusValues := ["Todo"] }
    { id := "done", title := "Done", taskIds := [], statusValues := ["Done", "Completed"] }
    { id := "t1", title := "T1", status := "Todo" } "2024-01-01T00:00:00Z"
    (by decide) (by decide) (by decide) (by decide) (by decide) (by decide)
  simpa using h

/-- The last-updated marker written by `moveTask` is either the incoming
marker (guard no-op) or the moved task id. -/
theorem moveTask_lastUpdatedTask (taskId srcId tgtId : String) (b : BoardData)
    (lastUpd : Option String) :
    (moveTask taskId srcId tgtId b lastUpd).lastUpdatedTask = lastUpd ∨
    (moveTask taskId srcId tgtId b lastUpd).lastUpdatedTask = some taskId := by
  unfold moveTask
  by_cases he : srcId = tgtId
  · rw [if_pos he]; left; rfl
  · rw [if_neg he]
    rcases lookupM b.columns srcId with _ | src
    · left; rfl
    · rcases lookupM b.columns tgtId with _ | tgt
      · left; rfl
      · rcases lookupM b.tasks taskId with _ | t
        · left; rfl
        · right; rfl

/-- Claim C10: once a move has completed, the change notification is not
one-shot.  No operation ever clears the last-updated marker (it survives
every load, drag and move), and `getOutputs` mutates nothing, so every
later call re-serialises an event for the same marked task — equal task
identity, new status and title — stamped with whatever fresh timestamp the
call is given. -/
theorem C10_outputs_not_one_shot :
    (∀ (s s' : CompState) (op : Op), stepOp s op = some s' →
        s.lastUpdatedTask.isSome = true → s'.lastUpdatedTask.isSome = true) ∧
    (∀ (s : CompState) (tid : String) (t : Task) (t1 t2 : String),
        s.lastUpdatedTask = some tid → tid ≠ "" →
        lookupM s.board.tasks tid = some t →
        (s.sourceColumnId = none ∨ s.sourceColumnId = some "" ∨
          ∃ sc c, s.sourceColumnId = some sc ∧ lookupM s.board.columns sc = some c) →
        ∃ e1 e2 : LastMovedEvent,
          getOutputs s.board s.lastUpdatedTask s.sourceColumnId t1 =
            some { updatedTasksData := s.board, lastMovedTask := some e1 } ∧
          getOutputs s.board s.lastUpdatedTask s.sourceColumnId t2 =
            some { updatedTasksData := s.board, lastMovedTask := some e2 } ∧
          e1.taskId = e2.taskId ∧ e1.newStatus = e2.newStatus ∧
          e1.title = e2.title ∧ e1.timestamp = t1 ∧ e2.timestamp = t2) := by
  constructor
  · intro s s' op hstep hsome
    cases op with
    | load ds legacy =>
      simp only [stepOp] at hstep
      rcases Option.map_eq_some'.mp hstep with ⟨bnew, _, hs'⟩
      rw [← hs']
      exact hsome
    | dragStart taskId colId =>
      simp only [stepOp, Option.some_inj] at hstep
      rw [← hstep]
      exact hsome
    | dragEnd =>
      simp only [stepOp, Option.some_inj] at hstep
      rw [← hstep]
      exact hsome
    | drop target =>
      simp only [stepOp] at hstep
      rcases hdrag : s.draggedTaskId with _ | tid
      · rw [hdrag] at hstep
        simp only [Option.some_inj] at hstep
        rw [← hstep]; exact hsome
      · rw [hdrag] at hstep
        dsimp only at hstep
        by_cases htid : tid = ""
        · rw [if_pos htid] at hstep
          simp only [Option.some_inj] at hstep
          rw [← hstep]; exact hsome
        · rw [if_neg htid] at hstep
          rcases hsrc : s.sourceColumnId with _ | srcc
          · rw [hsrc] at hstep
            simp only [Option.some_inj] at hstep
            rw [← hstep]; exact hsome
          · rw [hsrc] at hstep
            dsimp only at hstep
            by_cases hsc : srcc = ""
            · rw [if_pos hsc] at hstep
              simp only [Option.some_inj] at hstep
              rw [← hstep]; exact hsome
            · rw [if_neg hsc] at hstep
              rcases target with _ | tgtc
              · dsimp only at hstep
                simp only [Option.some_inj] at hstep
                rw [← hstep]; exact hsome
              · dsimp only at hstep
                by_cases htc : tgtc = ""
                · rw [if_pos htc] at hstep
                  simp only [Option.some_inj] at hstep
                  rw [← hstep]; exact hsome
                · rw [if_neg htc] at hstep
                  by_cases heq : srcc = tgtc
                  · rw [if_pos heq] at hstep
                    simp only [Option.some_inj] at hstep
                    rw [← hstep]; exact hsome
                  · rw [if_neg heq] at hstep
                    simp only [Option.some_inj] at hstep
                    rw [← hstep]
                    rcases moveTask_lastUpdatedTask tid srcc tgtc s.board s.lastUpdatedTask
                      with hm | hm
                    · simpa [hm] using hsome
                    · simp [hm]
    | move taskId srcId tgtId =>
      simp only [stepOp, Option.some_inj] at hstep
      rw [← hstep]
      rcases moveTask_lastUpdatedTask taskId srcId tgtId s.board s.lastUpdatedTask
        with hm | hm
      · simpa [hm] using hsome
      · simp [hm]
  · intro s tid t t1 t2 hmark htid htask hsc
    have hout : ∀ ts : String,
        getOutputs s.board s.lastUpdatedTask s.sourceColumnId ts =
          some { updatedTasksData := s.board,
                 lastMovedTask := some
                   { taskId := jsOrStr t.recordId t.id, newStatus := t.status,
                     previousStatus :=
                       (match s.sourceColumnId with
                        | none => ""
                        | some sc =>
                          if sc = "" then ""
                          else ((lookupM s.board.columns sc).map
                            (fun c => c.title)).getD ""),
                     title := t.title, timestamp := ts } } := by
      intro ts
      unfold getOutputs
      rw [hmark]
      dsimp only
      rw [if_neg htid, htask]
      dsimp only
      rcases hsc with h | h | h
      · rw [h]; rfl
      · rw [h]; rfl
      · rcases h with ⟨sc, c, hs, hc⟩
        rw [hs]
        dsimp only
        by_cases hsce : sc = ""
        · simp [hsce]
        · simp [hsce, hc]
    exact ⟨_, _, hout t1, hout t2, rfl, rfl, rfl, rfl, rfl⟩

/-- Claim C10, witness: both parts at concrete inputs — the marker survives
a concrete drag-end step, and two later output reads at different
timestamps serialise the same event content. -/
theorem C10_witness :
    (({ board := exampleBoard, draggedTaskId := none, sourceColumnId := none,
        lastUpdatedTask := some "t1", pendingUpdate := true } : CompState).lastUpdatedTask.isSome
      = true) ∧
    (∃ e1 e2 : LastMovedEvent,
      getOutputs exampleBoard (some "t1") none "TS1" =
        some { updatedTasksData := exampleBoard, lastMovedTask := some e1 } ∧
      getOutputs exampleBoard (some "t1") none "TS2" =
        some { updatedTasksData := exampleBoard, lastMovedTask := some e2 } ∧
      e1.taskId = e2.taskId ∧ e1.newStatus = e2.newStatus ∧
      e1.title = e2.title ∧ e1.timestamp = "TS1" ∧ e2.timestamp = "TS2") := by
  constructor
  · exact C10_outputs_not_one_shot.1
      { board := exampleBoard, draggedTaskId := some "x", sourceColumnId := some "todo",
        lastUpdatedTask := some "t1", pendingUpdate := true }
      { board := exampleBoard, draggedTaskId := none, sourceColumnId := none,
        lastUpdatedTask := some "t1", pendingUpdate := true }
      Op.dragEnd (by decide) (by decide)
  · exact C10_outputs_not_one_shot.2
      { board := exampleBoard, draggedTaskId := none, sourceColumnId := none,
        lastUpdatedTask := some "t1", pendingUpdate := true }
      "t1" { id := "t1", title := "T1", status := "Todo" } "TS1" "TS2"
      rfl (by decide) (by decide) (Or.inl rfl)

/-- Claim C6, counterexample.  On the same malformed legacy input and the
same previous board, the two code paths disagree: the part_000 load keeps
the previous board while the index.ts load replaces it with the sample
board, so no single fallback policy is applied on every code path. -/
theorem C6_counterexample :
    loadFromLegacyData defaultColumnDefinitions exampleBoard .malformed =
      some exampleBoard ∧
    loadFromLegacyDataIndex defaultColumnDefinitions exampleBoard .malformed =
      getEmptyBoardDataWithSamples defaultColumnDefinitions ∧
    some exampleBoard ≠ getEmptyBoardDataWithSamples defaultColumnDefinitions := by
  refine ⟨rfl, rfl, by decide⟩

/-- Claim C6 (amended): on an input that fails to parse as JSON neither
legacy-data load raises, and each path applies its own deterministic
fallback — but the policies differ between the two code paths: the part_000
implementation leaves the previous board unchanged, while the
KanbanBoard/index.ts implementation replaces the board with the
sample/demo data. -/
theorem C6_legacy_parse_fallbacks :
    (∀ (defs : List ColumnDefinition) (b : BoardData),
        loadFromLegacyData defs b .malformed = some b) ∧
    (∀ b : BoardData,
        loadFromLegacyDataIndex defaultColumnDefinitions b .malformed =
          getEmptyBoardDataWithSamples defaultColumnDefinitions) ∧
    (getEmptyBoardDataWithSamples defaultColumnDefinitions).isSome = true :=
  ⟨fun _ _ => rfl, fun _ => rfl, by decide⟩

/-- Claim C9: when the dataset parameter is selected by `loadData` and the
rebuild yields zero tasks, the board is replaced by the sample/demo data
rather than left empty. -/
theorem C9_empty_dataset_fallback (defs : List ColumnDefinition) (b : BoardData)
    (d : Dataset) (legacy : Option LegacyInput) (b1 : BoardData)
    (hload : d.loading = false)
    (hrids : ∃ rids, d.sortedRecordIds = some rids ∧ 0 < rids.length)
    (hds : loadFromDataset defs b (some d) = some b1)
    (hzero : b1.tasks = []) :
    loadData defs b (some d) legacy = getEmptyBoardDataWithSamples defs := by
  unfold loadData
  have havail : datasetAvailable (some d) = true := by
    rcases hrids with ⟨rids, hr, hlen⟩
    simp [datasetAvailable, hload, hr, hlen]
  rw [if_pos havail]
  simp [Option.bind, hds, hzero]

/-- A dataset holding exactly one harness-mock record: the load skips it and
rebuilds zero tasks. -/
def mockDataset : Dataset :=
  { loading := false, sortedRecordIds := some ["r1"],
    records := [("r1", { fields := [("title", "val"), ("status", "val")] })] }

/-- Claim C9, witness: the mock dataset forces the sample fallback. -/
theorem C9_witness :
    loadData defaultColumnDefinitions exampleBoard (some mockDataset) none =
      getEmptyBoardDataWithSamples defaultColumnDefinitions :=
  C9_empty_dataset_fallback defaultColumnDefinitions exampleBoard mockDataset none
    { tasks := [], columns := clearColumns exampleBoard.columns,
      columnOrder := exampleBoard.columnOrder }
    rfl ⟨["r1"], rfl, by decide⟩ (by decide) rfl

/-- Reconciliation never changes the id of the incoming task. -/
theorem reconcileTask_id (p : Option Task) (t0 : Task) :
    (reconcileTask p t0).id = t0.id := by
  unfold reconcileTask
  rcases p with _ | prev
  · rfl
  · by_cases hopt : prev.isOptimistic <;> by_cases hst : prev.status ≠ t0.status <;>
      simp [hopt, hst]

/-- Later fold steps never touch a key that differs from every remaining
non-mock resolved id. -/
theorem datasetFold_lookup_preserve (defs : List ColumnDefinition)
    (prevTasks : List (String × Task)) (columnOrder : List String)
    (records : List (String × DataRecord)) (key : String) :
    ∀ (rids : List String) (acc out : List (String × Task) × List (String × Column)),
      rids.foldlM (datasetStep defs prevTasks columnOrder records) acc = some out →
      (∀ r ∈ rids, isHarnessMock records r = false → resolvedId records r ≠ key) →
      lookupM out.1 key = lookupM acc.1 key := by
  intro rids
  induction rids with
  | nil =>
    intro acc out hfold _
    simp only [List.foldlM_nil, Option.pure_def, Option.some_inj] at hfold
    rw [hfold]
  | cons r rest ih =>
    intro acc out hfold hkeys
    rw [List.foldlM_cons] at hfold
    rcases hstep : datasetStep defs prevTasks columnOrder records acc r with _ | acc2
    · rw [hstep] at hfold
      exact Option.noConfusion hfold
    · rw [hstep] at hfold
      rw [Option.bind_eq_bind, Option.some_bind] at hfold
      have hrest := ih acc2 out hfold (fun r' hr' hm => hkeys r' (List.mem_cons_of_mem r hr') hm)
      rw [hrest]
      by_cases hmock : isHarnessMock records r = true
      · simp only [datasetStep, hmock, if_pos, Option.some_inj] at hstep
        rw [← hstep]
      · have hmock' : isHarnessMock records r = false := by
          simpa using hmock
        simp only [datasetStep, hmock', Bool.false_eq_true, if_false] at hstep
        rcases Option.map_eq_some'.mp hstep with ⟨cols, _, hacc2⟩
        rw [← hacc2]
        have hid : (reconcileTask (lookupM prevTasks (resolvedId records r))
            (buildTask records r)).id = resolvedId records r := by
          rw [reconcileTask_id]; rfl
        rw [hid]
        exact lookupM_insertM_ne _ _ _ _
          (fun hk => absurd hk.symm (hkeys r (List.mem_cons_self r rest) hmock'))

/-- The fold of `loadFromDataset` stores, for each processed non-mock record
with a resolved id distinct from every other processed one, exactly the
reconciled task under that id. -/
theorem datasetFold_lookup (defs : List ColumnDefinition)
    (prevTasks : List (String × Task)) (columnOrder : List String)
    (records : List (String × DataRecord)) :
    ∀ (rids : List String) (acc out : List (String × Task) × List (String × Column)),
      rids.foldlM (datasetStep defs prevTasks columnOrder records) acc = some out →
      ((rids.filter (fun r => !isHarnessMock records r)).map (resolvedId records)).Nodup →
      ∀ rid ∈ rids, isHarnessMock records rid = false →
        lookupM out.1 (resolvedId records rid) =
          some (reconcileTask (lookupM prevTasks (resolvedId records rid))
            (buildTask records rid)) := by
  intro rids
  induction rids with
  | nil =>
    intro acc out _ _ rid hmem
    exact absurd hmem (List.not_mem_nil rid)
  | cons r rest ih =>
    intro acc out hfold hnodup rid hmem hmock
    rw [List.foldlM_cons] at hfold
    rcases hstep : datasetStep defs prevTasks columnOrder records acc r with _ | acc2
    · rw [hstep] at hfold
      exact Option.noConfusion hfold
    · rw [hstep] at hfold
      rw [Option.bind_eq_bind, Option.some_bind] at hfold
      rcases List.mem_cons.mp hmem with hrid | hrid
      · subst hrid
        simp only [datasetStep, hmock, Bool.false_eq_true, if_false] at hstep
        rcases Option.map_eq_some'.mp hstep with ⟨cols, _, hacc2⟩
        have hnotin : ∀ r' ∈ rest, isHarnessMock records r' = false →
            resolvedId records r' ≠ resolvedId records rid := by
          intro r' hr' hm' heq
          have hhead : ((rid :: rest).filter
              (fun r'' => !isHarnessMock records r'')).map (resolvedId records) =
              resolvedId records rid ::
                ((rest.filter (fun r'' => !isHarnessMock records r'')).map
                  (resolvedId records)) := by
            rw [List.filter_cons, if_pos (by simp [hmock])]
            rfl
          rw [hhead] at hnodup
          have hmemmap : resolvedId records rid ∈
              (rest.filter (fun r'' => !isHarnessMock records r'')).map
                (resolvedId records) := by
            rw [← heq]
            exact List.mem_map_of_mem _ (List.mem_filter.mpr ⟨hr', by simp [hm']⟩)
          exact (List.nodup_cons.mp hnodup).1 hmemmap
        have hpres := datasetFold_lookup_preserve defs prevTasks columnOrder records
          (resolvedId records rid) rest acc2 out hfold hnotin
        rw [hpres, ← hacc2]
        have hid : (reconcileTask (lookupM prevTasks (resolvedId records rid))
            (buildTask records rid)).id = resolvedId records rid := by
          rw [reconcileTask_id]; rfl
        rw [hid, lookupM_insertM_self]
      · have hnodup' : ((rest.filter (fun r' => !isHarnessMock records r')).map
            (resolvedId records)).Nodup := by
          rw [List.filter_cons] at hnodup
          by_cases hm : isHarnessMock records r = true
          · simpa [hm] using hnodup
          · have : (!isHarnessMock records r) = true := by simp [hm]
            rw [if_pos this, List.map_cons] at hnodup
            exact (List.nodup_cons.mp hnodup).2
        exact ih acc2 out hfold hnodup' rid hrid hmock

/-- Claim C2: the optimistic reconciliation in the dataset load is the pure,
per-id three-way rule.  A non-optimistic previous task is replaced by the
incoming task outright; an optimistic previous task with a differing
incoming status keeps its previous status and stays optimistic; an
optimistic previous task with an equal incoming status adopts the incoming
task and clears the flag.  Moreover, the task map produced by
`loadFromDataset` holds, for every processed non-mock record whose resolved
id is distinct from the other processed ones, exactly this rule applied to
the previously held task for that id and the freshly built incoming task. -/
theorem C2_reconciliation :
    (∀ p t0 : Task, p.isOptimistic = false → reconcileTask (some p) t0 = t0) ∧
    (∀ p t0 : Task, p.isOptimistic = true → p.status ≠ t0.status →
        (reconcileTask (some p) t0).status = p.status ∧
        (reconcileTask (some p) t0).isOptimistic = true) ∧
    (∀ p t0 : Task, p.isOptimistic = true → p.status = t0.status →
        reconcileTask (some p) t0 = { t0 with isOptimistic := false }) ∧
    (∀ (defs : List ColumnDefinition) (b : BoardData) (d : Dataset)
        (b1 : BoardData) (rids : List String) (rid : String),
        d.sortedRecordIds = some rids →
        loadFromDataset defs b (some d) = some b1 →
        ((rids.filter (fun r => !isHarnessMock d.records r)).map
          (resolvedId d.records)).Nodup →
        rid ∈ rids →
        isHarnessMock d.records rid = false →
        lookupM b1.tasks (resolvedId d.records rid) =
          some (reconcileTask (lookupM b.tasks (resolvedId d.records rid))
            (buildTask d.records rid))) := by
  refine ⟨?_, ?_, ?_, ?_⟩
  · intro p t0 hopt
    simp [reconcileTask, hopt]
  · intro p t0 hopt hst
    simp [reconcileTask, hopt, hst]
  · intro p t0 hopt hst
    simp [reconcileTask, hopt, hst]
  · intro defs b d b1 rids rid hr hload hnodup hmem hmock
    unfold loadFromDataset at hload
    dsimp only at hload
    rw [hr] at hload
    dsimp only at hload
    rcases Option.map_eq_some'.mp hload with ⟨acc, hfold, hb1⟩
    rw [← hb1]
    exact datasetFold_lookup defs b.tasks b.columnOrder d.records rids
      ([], clearColumns b.columns) acc hfold hnodup rid hmem hmock

/-- A one-record dataset whose status disagrees with the optimistic local
status. -/
def staleDataset : Dataset :=
  { loading := false, sortedRecordIds := some ["t1"],
    records := [("t1", { fields := [("id", "t1"), ("title", "T1"), ("status", "Todo")] })] }

/-- A board holding an optimistic local task. -/
def optimisticBoard : BoardData :=
  { tasks := [("t1", { id := "t1", title := "T1", status := "In Progress",
                       isOptimistic := true })],
    columns := exampleBoard.columns, columnOrder := exampleBoard.columnOrder }

/-- Claim C2, witness: the stale-snapshot case on concrete data, through the
full dataset load. -/
theorem C2_witness :
    (reconcileTask
        (some { id := "t1", title := "T1", status := "In Progress", isOptimistic := true })
        { id := "t1", title := "T1", status := "Todo" }).status = "In Progress" ∧
    (reconcileTask
        (some { id := "t1", title := "T1", status := "In Progress", isOptimistic := true })
        { id := "t1", title := "T1", status := "Todo" }).isOptimistic = true ∧
    lookupM
        ((loadFromDataset defaultColumnDefinitions optimisticBoard
          (some staleDataset)).getD optimisticBoard).tasks "t1" =
      some (reconcileTask (lookupM optimisticBoard.tasks "t1")
        (buildTask staleDataset.records "t1")) := by
  refine ⟨?_, ?_, ?_⟩
  · exact (C2_reconciliation.2.1
      { id := "t1", title := "T1", status := "In Progress", isOptimistic := true }
      { id := "t1", title := "T1", status := "Todo" } rfl (by decide)).1
  · exact (C2_reconciliation.2.1
      { id := "t1", title := "T1", status := "In Progress", isOptimistic := true }
      { id := "t1", title := "T1", status := "Todo" } rfl (by decide)).2
  · have h := C2_reconciliation.2.2.2 defaultColumnDefinitions optimisticBoard
      staleDataset
      ((loadFromDataset defaultColumnDefinitions optimisticBoard
        (some staleDataset)).getD optimisticBoard)
      ["t1"] "t1" rfl (by decide) (by decide) (by decide) (by decide)
    simpa using h

/-! Infrastructure for the board invariants (claims C3 and C7). -/

/-- Invariant of claim C3: each task id appears in at most one column's
task list, and at most once there — the concatenation of every column's
task list has no duplicate. -/
def taskIdsUnique (b : BoardData) : Prop :=
  ((b.columns.map (fun p => p.2.taskIds)).flatten).Nodup

instance taskIdsUnique_decidable (b : BoardData) : Decidable (taskIdsUnique b) :=
  List.nodupDecidable _

/-- Total number of occurrences of an id across all column task lists. -/
def colCount (cols : List (String × Column)) (id : String) : Nat :=
  (cols.map (fun p => p.2.taskIds.count id)).sum

theorem taskIdsUnique_iff (b : BoardData) :
    taskIdsUnique b ↔ ∀ id, colCount b.columns id ≤ 1 := by
  unfold taskIdsUnique colCount
  rw [List.nodup_iff_count_le_one]
  constructor
  · intro h id
    have h2 := h id
    rw [List.count_flatten, List.map_map] at h2
    exact h2
  · intro h id
    have h2 := h id
    rw [List.count_flatten, List.map_map]
    exact h2

theorem colCount_cons (p : String × Column) (rest : List (String × Column))
    (id : String) :
    colCount (p :: rest) id = p.2.taskIds.count id + colCount rest id := by
  simp [colCount]

theorem colCount_eq_zero (cols : List (String × Column)) (id : String)
    (h : ∀ p ∈ cols, id ∉ p.2.taskIds) : colCount cols id = 0 := by
  induction cols with
  | nil => rfl
  | cons p rest ih =>
    rw [colCount_cons, List.count_eq_zero_of_not_mem (h p (List.mem_cons_self p rest)),
      ih (fun q hq => h q (List.mem_cons_of_mem p hq))]

theorem map_insert_eq_self {α : Type} (m : List (String × α)) (k : String) (v : α)
    (h : ∀ q ∈ m, q.1 ≠ k) :
    m.map (fun q => if q.1 == k then (k, v) else q) = m := by
  induction m with
  | nil => rfl
  | cons q rest ih =>
    have hq : ¬((q.1 == k) = true) := by
      simp only [beq_iff_eq]
      exact h q (List.mem_cons_self q rest)
    simp only [List.map_cons, if_neg hq]
    rw [ih (fun q' hq' => h q' (List.mem_cons_of_mem q hq'))]

theorem colCount_map_insert (cols : List (String × Column)) (k : String)
    (c c' : Column) (id : String)
    (hnd : (keysM cols).Nodup) (hc : lookupM cols k = some c) :
    colCount (cols.map (fun p => if p.1 == k then (k, c') else p)) id
        + c.taskIds.count id =
      colCount cols id + c'.taskIds.count id := by
  induction cols with
  | nil => simp [lookupM] at hc
  | cons p rest ih =>
    rw [lookupM_cons] at hc
    have hndrest : (keysM rest).Nodup := by
      unfold keysM at hnd ⊢
      exact (List.nodup_cons.mp hnd).2
    cases hp : (p.1 == k) with
    | true =>
      have hpk : p.1 = k := by simpa using hp
      rw [if_pos hp] at hc
      have hcc : c = p.2 := by
        injection hc with h'
        exact h'.symm
      have hrest : ∀ q ∈ rest, q.1 ≠ k := by
        intro q hq hqk
        unfold keysM at hnd
        have hmem : q.1 ∈ rest.map (fun p => p.1) :=
          List.mem_map_of_mem (fun p => p.1) hq
        rw [hqk, ← hpk] at hmem
        exact (List.nodup_cons.mp hnd).1 hmem
      simp only [List.map_cons, if_pos hp]
      rw [map_insert_eq_self rest k c' hrest, colCount_cons, colCount_cons, hcc]
      dsimp only
      omega
    | false =>
      rw [if_neg (by simp [hp])] at hc
      simp only [List.map_cons, hp, Bool.false_eq_true, if_false]
      rw [colCount_cons, colCount_cons]
      have := ih hndrest hc
      omega

theorem colCount_insertM (cols : List (String × Column)) (k : String)
    (c c' : Column) (id : String)
    (hnd : (keysM cols).Nodup) (hc : lookupM cols k = some c) :
    colCount (insertM cols k c') id + c.taskIds.count id =
      colCount cols id + c'.taskIds.count id := by
  unfold insertM
  have hfind : (cols.find? (fun p => p.1 == k)).isSome := by
    have : (lookupM cols k).isSome := by rw [hc]; rfl
    simpa [lookupM, Option.isSome_map] using this
  rw [if_pos hfind]
  exact colCount_map_insert cols k c c' id hnd hc

theorem lookupM_mem {α : Type} (m : List (String × α)) (k : String) (v : α)
    (h : lookupM m k = some v) : (k, v) ∈ m := by
  unfold lookupM at h
  rcases hf : m.find? (fun p => p.1 == k) with _ | p
  · rw [hf] at h; exact Option.noConfusion h
  · rw [hf] at h
    simp only [Option.map_some', Option.some_inj] at h
    have hmem := List.mem_of_find?_eq_some hf
    have hpk : p.1 = k := by simpa using List.find?_some hf
    have hp : p = (k, v) := by
      cases p with
      | mk a b =>
        simp only at hpk h
        rw [hpk, h]
    exact hp ▸ hmem

theorem colCount_eq_of_only (cols : List (String × Column)) (k : String)
    (src : Column) (id : String)
    (hnd : (keysM cols).Nodup) (hsrc : lookupM cols k = some src)
    (honly : ∀ p ∈ cols, p.1 ≠ k → id ∉ p.2.taskIds) :
    colCount cols id = src.taskIds.count id := by
  induction cols with
  | nil => simp [lookupM] at hsrc
  | cons p rest ih =>
    rw [lookupM_cons] at hsrc
    have hndrest : (keysM rest).Nodup := by
      unfold keysM at hnd ⊢
      exact (List.nodup_cons.mp hnd).2
    cases hp : (p.1 == k) with
    | true =>
      have hpk : p.1 = k := by simpa using hp
      rw [if_pos hp] at hsrc
      have hcc : src = p.2 := by
        injection hsrc with h'
        exact h'.symm
      have hrest0 : colCount rest id = 0 := by
        apply colCount_eq_zero
        intro q hq
        apply honly q (List.mem_cons_of_mem p hq)
        intro hqk
        unfold keysM at hnd
        have hmem : q.1 ∈ rest.map (fun p => p.1) :=
          List.mem_map_of_mem (fun p => p.1) hq
        rw [hqk, ← hpk] at hmem
        exact (List.nodup_cons.mp hnd).1 hmem
      rw [colCount_cons, hrest0, hcc]
      omega
    | false =>
      rw [if_neg (by simp [hp])] at hsrc
      have hpz : id ∉ p.2.taskIds :=
        honly p (List.mem_cons_self p rest) (by simpa using hp)
      rw [colCount_cons, List.count_eq_zero_of_not_mem hpz,
        ih hndrest hsrc (fun q hq hqk => honly q (List.mem_cons_of_mem p hq) hqk)]
      omega

/-- Guarded no-op form of `moveTask`, shared by several claims. -/
theorem moveTask_noop (b : BoardData) (taskId srcId tgtId : String)
    (lastUpd : Option String)
    (h : srcId = tgtId ∨ lookupM b.columns srcId = none ∨
      lookupM b.columns tgtId = none ∨ lookupM b.tasks taskId = none) :
    moveTask taskId srcId tgtId b lastUpd = ⟨b, lastUpd, 0⟩ := by
  unfold moveTask
  by_cases he : srcId = tgtId
  · rw [if_pos he]
  · rw [if_neg he]
    rcases h with h | h | h | h
    · exact absurd h he
    · rw [h]
    · rw [h]
      rcases lookupM b.columns srcId with _ | src <;> rfl
    · rw [h]
      rcases lookupM b.columns srcId with _ | src <;>
        rcases lookupM b.columns tgtId with _ | tgt <;> rfl

/-- `moveTask` preserves the uniqueness invariant whenever the moved task
occurs in no column other than the source. -/
theorem moveTask_taskIdsUnique (taskId srcId tgtId : String) (b : BoardData)
    (lastUpd : Option String)
    (hw : (keysM b.columns).Nodup)
    (hu : taskIdsUnique b)
    (honly : ∀ p ∈ b.columns, p.1 ≠ srcId → taskId ∉ p.2.taskIds) :
    taskIdsUnique (moveTask taskId srcId tgtId b lastUpd).board := by
  by_cases he : srcId = tgtId
  · rw [moveTask_noop b taskId srcId tgtId lastUpd (Or.inl he)]
    exact hu
  rcases hsrc : lookupM b.columns srcId with _ | src
  · rw [moveTask_noop b taskId srcId tgtId lastUpd (Or.inr (Or.inl hsrc))]
    exact hu
  rcases htgt : lookupM b.columns tgtId with _ | tgt
  · rw [moveTask_noop b taskId srcId tgtId lastUpd (Or.inr (Or.inr (Or.inl htgt)))]
    exact hu
  rcases ht : lookupM b.tasks taskId with _ | t
  · rw [moveTask_noop b taskId srcId tgtId lastUpd (Or.inr (Or.inr (Or.inr ht)))]
    exact hu
  rw [moveTask_success b taskId srcId tgtId lastUpd src tgt t he hsrc htgt ht]
  rw [taskIdsUnique_iff] at hu ⊢
  intro id
  have hu1 := hu id
  dsimp only
  have hnd1 : (keysM (insertM b.columns srcId
      { src with taskIds := src.taskIds.erase taskId })).Nodup :=
    keysM_nodup_insertM _ _ _ hw
  have hc1 : lookupM (insertM b.columns srcId
      { src with taskIds := src.taskIds.erase taskId }) tgtId = some tgt := by
    rw [lookupM_insertM_ne _ _ _ _ (fun hh => he hh.symm)]
    exact htgt
  have eq1 := colCount_insertM b.columns srcId src
    { src with taskIds := src.taskIds.erase taskId } id hw hsrc
  have eq2 := colCount_insertM _ tgtId tgt
    { tgt with taskIds := tgt.taskIds ++ [taskId] } id hnd1 hc1
  dsimp only at eq1 eq2
  by_cases hid : id = taskId
  · subst hid
    have hsum : colCount b.columns id = src.taskIds.count id :=
      colCount_eq_of_only b.columns srcId src id hw hsrc honly
    have htgt0 : tgt.taskIds.count id = 0 := by
      apply List.count_eq_zero_of_not_mem
      exact honly (tgtId, tgt) (lookupM_mem _ _ _ htgt) (fun hh => he hh.symm)
    have herase : (src.taskIds.erase id).count id = src.taskIds.count id - 1 := by
      exact List.count_erase_self id src.taskIds
    have happend : (tgt.taskIds ++ [id]).count id = tgt.taskIds.count id + 1 := by
      rw [List.count_append]
      simp
    rw [herase] at eq1
    rw [happend] at eq2
    omega
  · have herase : (src.taskIds.erase taskId).count id = src.taskIds.count id := by
      exact List.count_erase_of_ne hid src.taskIds
    have happend : (tgt.taskIds ++ [taskId]).count id = tgt.taskIds.count id := by
      rw [List.count_append]
      simp [hid]
    rw [herase] at eq1
    rw [happend] at eq2
    omega

theorem foldl_insert_cols_taskIds (defs : List ColumnDefinition) :
    ∀ acc : List (String × Column), (∀ p ∈ acc, p.2.taskIds = []) →
      ∀ p ∈ defs.foldl (fun cols d => insertM cols d.id
        { id := d.id, title := d.title, taskIds := [],
          statusValues := d.statusValues, color := d.color }) acc, p.2.taskIds = [] := by
  induction defs with
  | nil => intro acc hacc p hp; exact hacc p hp
  | cons d rest ih =>
    intro acc hacc p hp
    rw [List.foldl_cons] at hp
    refine ih _ ?_ p hp
    intro q hq
    rcases mem_insertM _ _ _ q hq with h | h
    · rw [h]
    · exact hacc q h

theorem foldl_insert_cols_nodup (defs : List ColumnDefinition) :
    ∀ acc : List (String × Column), (keysM acc).Nodup →
      (keysM (defs.foldl (fun cols d => insertM cols d.id
        { id := d.id, title := d.title, taskIds := [],
          statusValues := d.statusValues, color := d.color }) acc)).Nodup := by
  induction defs with
  | nil => intro acc h; exact h
  | cons d rest ih =>
    intro acc h
    rw [List.foldl_cons]
    exact ih _ (keysM_nodup_insertM _ _ _ h)

theorem emptyColumns_taskIds (defs : List ColumnDefinition) :
    ∀ p ∈ emptyColumns defs, p.2.taskIds = [] :=
  foldl_insert_cols_taskIds defs [] (by simp)

theorem emptyColumns_keys_nodup (defs : List ColumnDefinition) :
    (keysM (emptyColumns defs)).Nodup :=
  foldl_insert_cols_nodup defs [] List.nodup_nil

theorem emptyColumns_colCount (defs : List ColumnDefinition) (id : String) :
    colCount (emptyColumns defs) id = 0 :=
  colCount_eq_zero _ _ (fun p hp => by
    rw [emptyColumns_taskIds defs p hp]
    exact List.not_mem_nil id)

theorem clearColumns_taskIds (cols : List (String × Column)) :
    ∀ p ∈ clearColumns cols, p.2.taskIds = [] := by
  intro p hp
  rcases List.mem_map.mp hp with ⟨q, _, hpq⟩
  rw [← hpq]

theorem clearColumns_keys (cols : List (String × Column)) :
    keysM (clearColumns cols) = keysM cols := by
  unfold clearColumns keysM
  rw [List.map_map]
  rfl

theorem clearColumns_colCount (cols : List (String × Column)) (id : String) :
    colCount (clearColumns cols) id = 0 :=
  colCount_eq_zero _ _ (fun p hp => by
    rw [clearColumns_taskIds cols p hp]
    exact List.not_mem_nil id)

theorem pushToColumn_facts (cols : List (String × Column)) (cid tid : String)
    (cols' : List (String × Column)) (id : String)
    (hnd : (keysM cols).Nodup)
    (h : pushToColumn cols cid tid = some cols') :
    colCount cols' id = colCount cols id + (if id = tid then 1 else 0) ∧
    keysM cols' = keysM cols := by
  unfold pushToColumn at h
  rcases Option.map_eq_some'.mp h with ⟨c, hc, hcols⟩
  constructor
  · have heq := colCount_insertM cols cid c { c with taskIds := c.taskIds ++ [tid] } id hnd hc
    dsimp only at heq
    have happ : (c.taskIds ++ [tid]).count id =
        c.taskIds.count id + (if id = tid then 1 else 0) := by
      rw [List.count_append]
      by_cases hid : id = tid <;> simp [hid]
    rw [← hcols]
    omega
  · rw [← hcols]
    exact keysM_insertM_of_isSome cols cid _ (by rw [hc]; rfl)

theorem assignToColumn_facts (defs : List ColumnDefinition)
    (columnOrder : List String) (cols : List (String × Column))
    (tid status : String) (cols' : List (String × Column)) (id : String)
    (hnd : (keysM cols).Nodup)
    (h : assignToColumn defs columnOrder cols tid status = some cols') :
    colCount cols' id ≤ colCount cols id + (if id = tid then 1 else 0) ∧
    keysM cols' = keysM cols := by
  unfold assignToColumn at h
  have hfall : ∀ hfb : (match columnOrder.head? with
      | none => some cols
      | some f => if f = "" then some cols
        else pushToColumn cols f tid) = some cols',
      colCount cols' id ≤ colCount cols id + (if id = tid then 1 else 0) ∧
      keysM cols' = keysM cols := by
    intro hfb
    rcases hh : columnOrder.head? with _ | f
    · rw [hh] at hfb
      simp only [Option.some_inj] at hfb
      rw [← hfb]
      exact ⟨Nat.le_add_right _ _, rfl⟩
    · rw [hh] at hfb
      dsimp only at hfb
      by_cases hf : f = ""
      · rw [if_pos hf] at hfb
        simp only [Option.some_inj] at hfb
        rw [← hfb]
        exact ⟨Nat.le_add_right _ _, rfl⟩
      · rw [if_neg hf] at hfb
        have := pushToColumn_facts cols f tid cols' id hnd hfb
        exact ⟨le_of_eq this.1, this.2⟩
  rcases hcls : getColumnIdByStatus defs status with _ | cid
  · rw [hcls] at h
    exact hfall h
  · rw [hcls] at h
    dsimp only at h
    by_cases hcid : cid = ""
    · rw [if_pos hcid] at h
      exact hfall h
    · rw [if_neg hcid] at h
      rcases hlk : lookupM cols cid with _ | c
      · rw [hlk] at h
        exact hfall h
      · rw [hlk] at h
        simp only [Option.some_inj] at h
        constructor
        · have heq := colCount_insertM cols cid c
            { c with taskIds := c.taskIds ++ [tid] } id hnd hlk
          dsimp only at heq
          have happ : (c.taskIds ++ [tid]).count id =
              c.taskIds.count id + (if id = tid then 1 else 0) := by
            rw [List.count_append]
            by_cases hid : id = tid <;> simp [hid]
          rw [← h]
          omega
        · rw [← h]
          exact keysM_insertM_of_isSome cols cid _ (by rw [hlk]; rfl)

theorem datasetFold_count (defs : List ColumnDefinition)
    (prevTasks : List (String × Task)) (columnOrder : List String)
    (records : List (String × DataRecord)) :
    ∀ (rids : List String) (acc out : List (String × Task) × List (String × Column)),
      rids.foldlM (datasetStep defs prevTasks columnOrder records) acc = some out →
      (keysM acc.2).Nodup →
      (∀ id, colCount out.2 id ≤ colCount acc.2 id +
        ((rids.filter (fun r => !isHarnessMock records r)).map
          (resolvedId records)).count id) ∧
      keysM out.2 = keysM acc.2 := by
  intro rids
  induction rids with
  | nil =>
    intro acc out hfold _
    simp only [List.foldlM_nil, Option.pure_def, Option.some_inj] at hfold
    rw [← hfold]
    exact ⟨fun id => Nat.le_add_right _ _, rfl⟩
  | cons r rest ih =>
    intro acc out hfold hnd
    rw [List.foldlM_cons] at hfold
    rcases hstep : datasetStep defs prevTasks columnOrder records acc r with _ | acc2
    · rw [hstep] at hfold
      exact Option.noConfusion hfold
    · rw [hstep] at hfold
      rw [Option.bind_eq_bind, Option.some_bind] at hfold
      by_cases hmock : isHarnessMock records r = true
      · simp only [datasetStep, hmock, if_pos, Option.some_inj] at hstep
        have hrec := ih acc2 out hfold (hstep ▸ hnd)
        rw [List.filter_cons, if_neg (by simp [hmock])]
        rw [← hstep] at hrec
        exact hrec
      · have hmock' : isHarnessMock records r = false := by simpa using hmock
        simp only [datasetStep, hmock', Bool.false_eq_true, if_false] at hstep
        rcases Option.map_eq_some'.mp hstep with ⟨cols, hassign, hacc2⟩
        have hid : (reconcileTask (lookupM prevTasks (resolvedId records r))
            (buildTask records r)).id = resolvedId records r := by
          rw [reconcileTask_id]; rfl
        rw [hid] at hassign hacc2
        have hfacts := fun id => assignToColumn_facts defs columnOrder acc.2
          (resolvedId records r)
          (reconcileTask (lookupM prevTasks (resolvedId records r))
            (buildTask records r)).status cols id hnd hassign
        have hnd2 : (keysM acc2.2).Nodup := by
          rw [← hacc2]
          dsimp only
          rw [(hfacts "").2]
          exact hnd
        have hrec := ih acc2 out hfold hnd2
        constructor
        · intro id
          have h1 := hrec.1 id
          have h2 := (hfacts id).1
          have hcols2 : acc2.2 = cols := by rw [← hacc2]
          rw [hcols2] at h1
          rw [List.filter_cons, if_pos (by simp [hmock'])]
          rw [List.map_cons]
          have hcnt : ((resolvedId records r) ::
              (rest.filter (fun r' => !isHarnessMock records r')).map
                (resolvedId records)).count id =
              ((rest.filter (fun r' => !isHarnessMock records r')).map
                (resolvedId records)).count id +
                (if id = resolvedId records r then 1 else 0) := by
            by_cases hh : id = resolvedId records r <;>
              simp [List.count_cons, hh]
          omega
        · have h2 := (hfacts "").2
          have hcols2 : acc2.2 = cols := by rw [← hacc2]
          rw [hrec.2, hcols2, h2]

theorem loadFromDataset_unique (defs : List ColumnDefinition) (b : BoardData)
    (d : Dataset) (rids : List String) (b1 : BoardData)
    (hw : (keysM b.columns).Nodup)
    (hr : d.sortedRecordIds = some rids)
    (hnodup : ((rids.filter (fun r => !isHarnessMock d.records r)).map
      (resolvedId d.records)).Nodup)
    (hds : loadFromDataset defs b (some d) = some b1) :
    taskIdsUnique b1 := by
  unfold loadFromDataset at hds
  dsimp only at hds
  rw [hr] at hds
  dsimp only at hds
  rcases Option.map_eq_some'.mp hds with ⟨acc, hfold, hb1⟩
  rw [taskIdsUnique_iff]
  intro id
  have hnd0 : (keysM (clearColumns b.columns)).Nodup := by
    rw [clearColumns_keys]; exact hw
  have hcount := (datasetFold_count defs b.tasks b.columnOrder d.records rids
    ([], clearColumns b.columns) acc hfold hnd0).1 id
  have hzero : colCount (([], clearColumns b.columns) :
      List (String × Task) × List (String × Column)).2 id = 0 :=
    clearColumns_colCount b.columns id
  have hle := (List.nodup_iff_count_le_one.mp hnodup) id
  rw [← hb1]
  dsimp only
  omega

theorem legacyFlatStep_facts (defs : List ColumnDefinition) (b : BoardData)
    (t : Task) (b1 : BoardData) (id : String)
    (hnd : (keysM b.columns).Nodup)
    (h : legacyFlatStep defs b t = some b1) :
    colCount b1.columns id ≤ colCount b.columns id + (if id = t.id then 1 else 0) ∧
    keysM b1.columns = keysM b.columns := by
  unfold legacyFlatStep at h
  rcases hcls : getColumnIdByStatus defs t.status with _ | cid
  · rw [hcls] at h
    simp only [Option.some_inj] at h
    rw [← h]
    exact ⟨Nat.le_add_right _ _, rfl⟩
  · rw [hcls] at h
    dsimp only at h
    by_cases hcid : cid = ""
    · rw [if_pos hcid] at h
      simp only [Option.some_inj] at h
      rw [← h]
      exact ⟨Nat.le_add_right _ _, rfl⟩
    · rw [if_neg hcid] at h
      rcases Option.map_eq_some'.mp h with ⟨cols, hpush, hb1'⟩
      have hfacts := pushToColumn_facts b.columns cid t.id cols id hnd hpush
      rw [← hb1']
      exact ⟨le_of_eq hfacts.1, hfacts.2⟩

theorem legacyFlat_count (defs : List ColumnDefinition) :
    ∀ (ts : List Task) (acc out : BoardData),
      ts.foldlM (legacyFlatStep defs) acc = some out →
      (keysM acc.columns).Nodup →
      (∀ id, colCount out.columns id ≤ colCount acc.columns id +
        (ts.map Task.id).count id) ∧
      keysM out.columns = keysM acc.columns := by
  intro ts
  induction ts with
  | nil =>
    intro acc out hfold _
    simp only [List.foldlM_nil, Option.pure_def, Option.some_inj] at hfold
    rw [← hfold]
    exact ⟨fun id => Nat.le_add_right _ _, rfl⟩
  | cons t rest ih =>
    intro acc out hfold hnd
    rw [List.foldlM_cons] at hfold
    rcases hstep : legacyFlatStep defs acc t with _ | acc2
    · rw [hstep] at hfold
      exact Option.noConfusion hfold
    · rw [hstep] at hfold
      rw [Option.bind_eq_bind, Option.some_bind] at hfold
      have hfacts := fun id => legacyFlatStep_facts defs acc t acc2 id hnd hstep
      have hnd2 : (keysM acc2.columns).Nodup := by
        rw [(hfacts "").2]; exact hnd
      have hrec := ih acc2 out hfold hnd2
      constructor
      · intro id
        have h1 := hrec.1 id
        have h2 := (hfacts id).1
        have hcnt : ((t :: rest).map Task.id).count id =
            (rest.map Task.id).count id + (if id = t.id then 1 else 0) := by
          by_cases hh : id = t.id <;> simp [List.count_cons, hh]
        omega
      · rw [hrec.2, (hfacts "").2]

/-- A well-formed board in which task `t1` sits in the done column; claim C3
fails when `moveTask` is asked to move it out of the todo column. -/
def singleDoneBoard : BoardData :=
  { tasks := [("t1", { id := "t1", title := "T1", status := "Done" })],
    columns :=
      [("todo", { id := "todo", title := "To Do", taskIds := [],
                  statusValues := ["Todo"] }),
       ("done", { id := "done", title := "Done", taskIds := ["t1"],
                  statusValues := ["Done"] })],
    columnOrder := ["todo", "done"] }

/-- Claim C3, counterexample.  `singleDoneBoard` satisfies the invariant and
resolves the task and both columns, so the claimed preservation for
`moveTask` with any arguments applies to `moveTask("t1", "todo", "done")`;
but the code removes nothing from the todo column (the task is not there)
and still appends `"t1"` to the done column, which ends up listing the task
twice. -/
theorem C3_counterexample :
    taskIdsUnique singleDoneBoard ∧
    (lookupM singleDoneBoard.columns "todo").isSome = true ∧
    (lookupM singleDoneBoard.columns "done").isSome = true ∧
    (lookupM singleDoneBoard.tasks "t1").isSome = true ∧
    (lookupM (moveTask "t1" "todo" "done" singleDoneBoard none).board.columns
        "done").map Column.taskIds = some ["t1", "t1"] ∧
    ¬ taskIdsUnique (moveTask "t1" "todo" "done" singleDoneBoard none).board := by
  refine ⟨by decide, by decide, by decide, by decide, by decide, by decide⟩

/-- Claim C3 (amended): the uniqueness invariant — each task id in at most
one column list, at most once — is established or preserved by every
operation under the conditions the code actually guarantees: the empty
board satisfies it; a dataset load satisfies it whenever the non-mock
records resolve to pairwise-distinct task ids; a legacy parse failure keeps
the previous board and hence the invariant; a legacy object load satisfies
it whenever the columns supplied by the bundle do; a legacy flat-array load
satisfies it whenever the task ids in the array are pairwise distinct; and
`moveTask` preserves it provided the moved task occurs in no column other
than the source.  (Without these conditions the invariant can be violated,
see the counterexample.)  The key-uniqueness hypotheses mirror the fact
that JS object keys are unique. -/
theorem C3_uniqueness :
    (∀ defs : List ColumnDefinition, taskIdsUnique (getEmptyBoardData defs)) ∧
    (∀ (defs : List ColumnDefinition) (b : BoardData) (d : Dataset)
        (rids : List String) (b1 : BoardData),
        (keysM b.columns).Nodup →
        d.sortedRecordIds = some rids →
        ((rids.filter (fun r => !isHarnessMock d.records r)).map
          (resolvedId d.records)).Nodup →
        loadFromDataset defs b (some d) = some b1 → taskIdsUnique b1) ∧
    (∀ (defs : List ColumnDefinition) (b b1 : BoardData), taskIdsUnique b →
        loadFromLegacyData defs b .malformed = some b1 → taskIdsUnique b1) ∧
    (∀ (defs : List ColumnDefinition) (b : BoardData) (p : LegacyBundle)
        (b1 : BoardData),
        (∀ cols, p.columns = some cols →
          ((cols.map (fun q => q.2.taskIds)).flatten).Nodup) →
        loadFromLegacyData defs b (.obj p) = some b1 → taskIdsUnique b1) ∧
    (∀ (defs : List ColumnDefinition) (b : BoardData) (ts : List Task)
        (b1 : BoardData),
        (ts.map Task.id).Nodup →
        loadFromLegacyData defs b (.arr ts) = some b1 → taskIdsUnique b1) ∧
    (∀ (taskId srcId tgtId : String) (b : BoardData) (lastUpd : Option String),
        (keysM b.columns).Nodup → taskIdsUnique b →
        (∀ p ∈ b.columns, p.1 ≠ srcId → taskId ∉ p.2.taskIds) →
        taskIdsUnique (moveTask taskId srcId tgtId b lastUpd).board) := by
  refine ⟨?_, ?_, ?_, ?_, ?_, ?_⟩
  · intro defs
    rw [taskIdsUnique_iff]
    intro id
    have := emptyColumns_colCount defs id
    simp only [getEmptyBoardData]
    omega
  · intro defs b d rids b1 hw hr hnodup hds
    exact loadFromDataset_unique defs b d rids b1 hw hr hnodup hds
  · intro defs b b1 hu h
    simp only [loadFromLegacyData, Option.some_inj] at h
    rw [← h]
    exact hu
  · intro defs b p b1 hcols h
    simp only [loadFromLegacyData, Option.some_inj] at h
    rw [← h]
    unfold taskIdsUnique spreadOver
    dsimp only
    rcases hp : p.columns with _ | cols
    · simp only [Option.getD_none]
      have h2 := (taskIdsUnique_iff (getEmptyBoardData defs)).mpr
      have h3 : ∀ id, colCount (getEmptyBoardData defs).columns id ≤ 1 := by
        intro id
        simp only [getEmptyBoardData]
        rw [emptyColumns_colCount]
        omega
      exact h2 h3
    · simp only [Option.getD_some]
      exact hcols cols hp
  · intro defs b ts b1 hnodup h
    simp only [loadFromLegacyData] at h
    rw [taskIdsUnique_iff]
    intro id
    have hnd0 : (keysM (getEmptyBoardData defs).columns).Nodup :=
      emptyColumns_keys_nodup defs
    have hcount := (legacyFlat_count defs ts (getEmptyBoardData defs) b1 h hnd0).1 id
    have hzero : colCount (getEmptyBoardData defs).columns id = 0 :=
      emptyColumns_colCount defs id
    have hle := (List.nodup_iff_count_le_one.mp hnodup) id
    omega
  · intro taskId srcId tgtId b lastUpd hw hu honly
    exact moveTask_taskIdsUnique taskId srcId tgtId b lastUpd hw hu honly

/-- Claim C3 (amended), witness: the empty default board satisfies the
invariant, and a concrete in-condition move preserves it. -/
theorem C3_witness :
    taskIdsUnique (getEmptyBoardData defaultColumnDefinitions) ∧
    taskIdsUnique (moveTask "t1" "todo" "done" exampleBoard none).board := by
  constructor
  · exact C3_uniqueness.1 defaultColumnDefinitions
  · exact C3_uniqueness.2.2.2.2.2 "t1" "todo" "done" exampleBoard none
      (by decide) (by decide) (by decide)

/-- Invariant of claim C7: every id in any column's task list is a key of
the task map. -/
def noDangling (b : BoardData) : Prop :=
  ∀ p ∈ b.columns, ∀ id ∈ p.2.taskIds, (lookupM b.tasks id).isSome = true

instance noDangling_decidable (b : BoardData) : Decidable (noDangling b) := by
  unfold noDangling
  infer_instance

theorem setColTaskIds_mem (cols : List (String × Column)) (k : String)
    (ids : List String) (cols' : List (String × Column)) (q : String × Column)
    (h : setColTaskIds cols k ids = some cols') (hq : q ∈ cols') :
    q.2.taskIds = ids ∨ q ∈ cols := by
  unfold setColTaskIds at h
  rcases Option.map_eq_some'.mp h with ⟨c, _, hcols⟩
  rw [← hcols] at hq
  rcases mem_insertM _ _ _ q hq with h1 | h1
  · left; rw [h1]
  · right; exact h1

/-- The sample board never dangles: every id its columns list is one of the
six sample task keys. -/
theorem samples_noDangling (defs : List ColumnDefinition) (bs : BoardData)
    (h : getEmptyBoardDataWithSamples defs = some bs) : noDangling bs := by
  unfold getEmptyBoardDataWithSamples at h
  dsimp only at h
  rcases h1 : setColTaskIds (emptyColumns defs) "todo" ["task-1", "task-5"]
    with _ | cols1
  · rw [h1] at h; exact Option.noConfusion h
  rw [h1] at h
  rw [Option.bind_eq_bind, Option.some_bind] at h
  rcases h2 : setColTaskIds cols1 "inprogress" ["task-2", "task-6"] with _ | cols2
  · rw [h2] at h; exact Option.noConfusion h
  rw [h2] at h
  rw [Option.some_bind] at h
  rcases h3 : setColTaskIds cols2 "review" ["task-3"] with _ | cols3
  · rw [h3] at h; exact Option.noConfusion h
  rw [h3] at h
  rw [Option.some_bind] at h
  rcases h4 : setColTaskIds cols3 "done" ["task-4"] with _ | cols4
  · rw [h4] at h; exact Option.noConfusion h
  rw [h4] at h
  rw [Option.some_bind] at h
  simp only [Option.some_inj] at h
  rw [← h]
  intro p hp id hid
  dsimp only at hp hid ⊢
  have hsample : ∀ x : String,
      x = "task-1" ∨ x = "task-2" ∨ x = "task-3" ∨ x = "task-4" ∨
      x = "task-5" ∨ x = "task-6" → (lookupM sampleTasks x).isSome = true := by
    intro x hx
    rcases hx with hx | hx | hx | hx | hx | hx <;> (subst hx; decide)
  rcases setColTaskIds_mem _ _ _ _ _ h4 hp with he | hp3
  · rw [he] at hid
    apply hsample
    rcases List.mem_singleton.mp hid with hid'
    rw [hid']
    tauto
  rcases setColTaskIds_mem _ _ _ _ _ h3 hp3 with he | hp2
  · rw [he] at hid
    apply hsample
    rcases List.mem_singleton.mp hid with hid'
    rw [hid']
    tauto
  rcases setColTaskIds_mem _ _ _ _ _ h2 hp2 with he | hp1
  · rw [he] at hid
    apply hsample
    rcases List.mem_cons.mp hid with hid' | hid'
    · rw [hid']; tauto
    · rcases List.mem_singleton.mp hid' with hid''
      rw [hid'']; tauto
  rcases setColTaskIds_mem _ _ _ _ _ h1 hp1 with he | hp0
  · rw [he] at hid
    apply hsample
    rcases List.mem_cons.mp hid with hid' | hid'
    · rw [hid']; tauto
    · rcases List.mem_singleton.mp hid' with hid''
      rw [hid'']; tauto
  · rw [emptyColumns_taskIds defs p hp0] at hid
    exact absurd hid (List.not_mem_nil id)

theorem pushToColumn_mem_ids (cols : List (String × Column)) (cid tid : String)
    (cols' : List (String × Column)) (q : String × Column) (id : String)
    (h : pushToColumn cols cid tid = some cols') (hq : q ∈ cols')
    (hid : id ∈ q.2.taskIds) :
    (∃ q0 ∈ cols, id ∈ q0.2.taskIds) ∨ id = tid := by
  unfold pushToColumn at h
  rcases Option.map_eq_some'.mp h with ⟨c, hc, hcols⟩
  rw [← hcols] at hq
  rcases mem_insertM _ _ _ q hq with h1 | h1
  · rw [h1] at hid
    dsimp only at hid
    rcases List.mem_append.mp hid with h2 | h2
    · exact Or.inl ⟨(cid, c), lookupM_mem _ _ _ hc, h2⟩
    · exact Or.inr (List.mem_singleton.mp h2)
  · exact Or.inl ⟨q, h1, hid⟩

theorem assignToColumn_mem_ids (defs : List ColumnDefinition)
    (columnOrder : List String) (cols : List (String × Column))
    (tid status : String) (cols' : List (String × Column))
    (q : String × Column) (id : String)
    (h : assignToColumn defs columnOrder cols tid status = some cols')
    (hq : q ∈ cols') (hid : id ∈ q.2.taskIds) :
    (∃ q0 ∈ cols, id ∈ q0.2.taskIds) ∨ id = tid := by
  unfold assignToColumn at h
  have hfall : ∀ hfb : (match columnOrder.head? with
      | none => some cols
      | some f => if f = "" then some cols
        else pushToColumn cols f tid) = some cols',
      (∃ q0 ∈ cols, id ∈ q0.2.taskIds) ∨ id = tid := by
    intro hfb
    rcases hh : columnOrder.head? with _ | f
    · rw [hh] at hfb
      simp only [Option.some_inj] at hfb
      rw [← hfb] at hq
      exact Or.inl ⟨q, hq, hid⟩
    · rw [hh] at hfb
      dsimp only at hfb
      by_cases hf : f = ""
      · rw [if_pos hf] at hfb
        simp only [Option.some_inj] at hfb
        rw [← hfb] at hq
        exact Or.inl ⟨q, hq, hid⟩
      · rw [if_neg hf] at hfb
        exact pushToColumn_mem_ids cols f tid cols' q id hfb hq hid
  rcases hcls : getColumnIdByStatus defs status with _ | cid
  · rw [hcls] at h
    exact hfall h
  · rw [hcls] at h
    dsimp only at h
    by_cases hcid : cid = ""
    · rw [if_pos hcid] at h
      exact hfall h
    · rw [if_neg hcid] at h
      rcases hlk : lookupM cols cid with _ | c
      · rw [hlk] at h
        exact hfall h
      · rw [hlk] at h
        simp only [Option.some_inj] at h
        rw [← h] at hq
        rcases mem_insertM _ _ _ q hq with h1 | h1
        · rw [h1] at hid
          dsimp only at hid
          rcases List.mem_append.mp hid with h2 | h2
          · exact Or.inl ⟨(cid, c), lookupM_mem _ _ _ hlk, h2⟩
          · exact Or.inr (List.mem_singleton.mp h2)
        · exact Or.inl ⟨q, h1, hid⟩

/-- `moveTask` never introduces a dangling id. -/
theorem moveTask_noDangling (taskId srcId tgtId : String) (b : BoardData)
    (lastUpd : Option String) (hb : noDangling b) :
    noDangling (moveTask taskId srcId tgtId b lastUpd).board := by
  by_cases he : srcId = tgtId
  · rw [moveTask_noop b taskId srcId tgtId lastUpd (Or.inl he)]
    exact hb
  rcases hsrc : lookupM b.columns srcId with _ | src
  · rw [moveTask_noop b taskId srcId tgtId lastUpd (Or.inr (Or.inl hsrc))]
    exact hb
  rcases htgt : lookupM b.columns tgtId with _ | tgt
  · rw [moveTask_noop b taskId srcId tgtId lastUpd (Or.inr (Or.inr (Or.inl htgt)))]
    exact hb
  rcases ht : lookupM b.tasks taskId with _ | t
  · rw [moveTask_noop b taskId srcId tgtId lastUpd (Or.inr (Or.inr (Or.inr ht)))]
    exact hb
  rw [moveTask_success b taskId srcId tgtId lastUpd src tgt t he hsrc htgt ht]
  intro p hp id hid
  dsimp only at hp hid ⊢
  have hfromb : ∀ q0 ∈ b.columns, id ∈ q0.2.taskIds →
      (lookupM (insertM b.tasks taskId
        { t with status := jsOrStr tgt.statusValues.head? tgt.title,
                 isOptimistic := true }) id).isSome = true := by
    intro q0 hq0 hidq
    exact lookupM_isSome_insertM _ _ _ _ (hb q0 hq0 id hidq)
  rcases mem_insertM _ _ _ p hp with h1 | h1
  · rw [h1] at hid
    dsimp only at hid
    rcases List.mem_append.mp hid with h2 | h2
    · exact hfromb (tgtId, tgt) (lookupM_mem _ _ _ htgt) h2
    · rw [List.mem_singleton.mp h2, lookupM_insertM_self]
      rfl
  rcases mem_insertM _ _ _ p h1 with h2 | h2
  · rw [h2] at hid
    dsimp only at hid
    exact hfromb (srcId, src) (lookupM_mem _ _ _ hsrc) (List.mem_of_mem_erase hid)
  · exact hfromb p h2 hid

theorem datasetFold_noDangling (defs : List ColumnDefinition)
    (prevTasks : List (String × Task)) (columnOrder : List String)
    (records : List (String × DataRecord)) :
    ∀ (rids : List String) (acc out : List (String × Task) × List (String × Column)),
      rids.foldlM (datasetStep defs prevTasks columnOrder records) acc = some out →
      (∀ p ∈ acc.2, ∀ id ∈ p.2.taskIds, (lookupM acc.1 id).isSome = true) →
      ∀ p ∈ out.2, ∀ id ∈ p.2.taskIds, (lookupM out.1 id).isSome = true := by
  intro rids
  induction rids with
  | nil =>
    intro acc out hfold hinv
    simp only [List.foldlM_nil, Option.pure_def, Option.some_inj] at hfold
    rw [← hfold]
    exact hinv
  | cons r rest ih =>
    intro acc out hfold hinv
    rw [List.foldlM_cons] at hfold
    rcases hstep : datasetStep defs prevTasks columnOrder records acc r with _ | acc2
    · rw [hstep] at hfold
      exact Option.noConfusion hfold
    · rw [hstep] at hfold
      rw [Option.bind_eq_bind, Option.some_bind] at hfold
      refine ih acc2 out hfold ?_
      by_cases hmock : isHarnessMock records r = true
      · simp only [datasetStep, hmock, if_pos, Option.some_inj] at hstep
        rw [← hstep]
        exact hinv
      · have hmock' : isHarnessMock records r = false := by simpa using hmock
        simp only [datasetStep, hmock', Bool.false_eq_true, if_false] at hstep
        rcases Option.map_eq_some'.mp hstep with ⟨cols, hassign, hacc2⟩
        intro p hp id hid
        rw [← hacc2] at hp ⊢
        dsimp only at hp ⊢
        rcases assignToColumn_mem_ids defs columnOrder acc.2 _ _ cols p id
          hassign hp hid with ⟨q0, hq0, hidq⟩ | hnew
        · exact lookupM_isSome_insertM _ _ _ _ (hinv q0 hq0 id hidq)
        · rw [hnew, lookupM_insertM_self]
          rfl

theorem loadFromDataset_noDangling (defs : List ColumnDefinition) (b : BoardData)
    (ds : Option Dataset) (b1 : BoardData)
    (h : loadFromDataset defs b ds = some b1) : noDangling b1 := by
  unfold loadFromDataset at h
  dsimp only at h
  rcases ds with _ | d
  · simp only [Option.some_inj] at h
    rw [← h]
    intro p hp id hid
    dsimp only at hp hid
    rw [clearColumns_taskIds b.columns p hp] at hid
    exact absurd hid (List.not_mem_nil id)
  · dsimp only at h
    rcases hr : d.sortedRecordIds with _ | rids
    · rw [hr] at h
      simp only [Option.some_inj] at h
      rw [← h]
      intro p hp id hid
      dsimp only at hp hid
      rw [clearColumns_taskIds b.columns p hp] at hid
      exact absurd hid (List.not_mem_nil id)
    · rw [hr] at h
      dsimp only at h
      rcases Option.map_eq_some'.mp h with ⟨acc, hfold, hb1⟩
      rw [← hb1]
      intro p hp id hid
      dsimp only at hp hid ⊢
      refine datasetFold_noDangling defs b.tasks b.columnOrder d.records rids
        ([], clearColumns b.columns) acc hfold ?_ p hp id hid
      intro q hq idq hidq
      dsimp only at hq hidq
      rw [clearColumns_taskIds b.columns q hq] at hidq
      exact absurd hidq (List.not_mem_nil idq)

theorem legacyFlat_noDangling (defs : List ColumnDefinition) :
    ∀ (ts : List Task) (acc out : BoardData),
      ts.foldlM (legacyFlatStep defs) acc = some out →
      noDangling acc → noDangling out := by
  intro ts
  induction ts with
  | nil =>
    intro acc out hfold hinv
    simp only [List.foldlM_nil, Option.pure_def, Option.some_inj] at hfold
    rw [← hfold]
    exact hinv
  | cons t rest ih =>
    intro acc out hfold hinv
    rw [List.foldlM_cons] at hfold
    rcases hstep : legacyFlatStep defs acc t with _ | acc2
    · rw [hstep] at hfold
      exact Option.noConfusion hfold
    · rw [hstep] at hfold
      rw [Option.bind_eq_bind, Option.some_bind] at hfold
      refine ih acc2 out hfold ?_
      unfold legacyFlatStep at hstep
      have hbase : ∀ q0 ∈ acc.columns, ∀ idq ∈ q0.2.taskIds,
          (lookupM (insertM acc.tasks t.id t) idq).isSome = true := by
        intro q0 hq0 idq hidq
        exact lookupM_isSome_insertM _ _ _ _ (hinv q0 hq0 idq hidq)
      rcases hcls : getColumnIdByStatus defs t.status with _ | cid
      · rw [hcls] at hstep
        simp only [Option.some_inj] at hstep
        rw [← hstep]
        intro p hp id hid
        exact hbase p hp id hid
      · rw [hcls] at hstep
        dsimp only at hstep
        by_cases hcid : cid = ""
        · rw [if_pos hcid] at hstep
          simp only [Option.some_inj] at hstep
          rw [← hstep]
          intro p hp id hid
          exact hbase p hp id hid
        · rw [if_neg hcid] at hstep
          rcases Option.map_eq_some'.mp hstep with ⟨cols, hpush, hacc2⟩
          rw [← hacc2]
          intro p hp id hid
          dsimp only at hp hid ⊢
          rcases pushToColumn_mem_ids _ cid t.id cols p id hpush hp hid
            with ⟨q0, hq0, hidq⟩ | hnew
          · exact hbase q0 hq0 id hidq
          · rw [hnew, lookupM_insertM_self]
            rfl

/-- Legacy object bundles that reference only their own tasks. -/
def bundleOk (p : LegacyBundle) : Bool :=
  match p.columns with
  | none => true
  | some cols => cols.all (fun q => q.2.taskIds.all
      (fun id => (lookupM (p.tasks.getD []) id).isSome))

theorem loadFromLegacyData_noDangling (defs : List ColumnDefinition)
    (b : BoardData) (input : LegacyInput) (b1 : BoardData)
    (hb : noDangling b)
    (hok : ∀ p, input = .obj p → bundleOk p = true)
    (h : loadFromLegacyData defs b input = some b1) : noDangling b1 := by
  cases input with
  | malformed =>
    simp only [loadFromLegacyData, Option.some_inj] at h
    rw [← h]
    exact hb
  | obj p =>
    simp only [loadFromLegacyData, Option.some_inj] at h
    rw [← h]
    intro q hq id hid
    unfold spreadOver at hq ⊢
    dsimp only at hq ⊢
    rcases hp : p.columns with _ | cols
    · rw [hp, Option.getD_none] at hq
      dsimp only [getEmptyBoardData] at hq
      rw [emptyColumns_taskIds defs q hq] at hid
      exact absurd hid (List.not_mem_nil id)
    · rw [hp, Option.getD_some] at hq
      have hokp := hok p rfl
      unfold bundleOk at hokp
      rw [hp] at hokp
      have hall := List.all_eq_true.mp hokp q hq
      have hall2 := List.all_eq_true.mp hall id hid
      rcases hpt : p.tasks with _ | ts
      · rw [hpt] at hall2
        simpa [hpt, getEmptyBoardData] using hall2
      · rw [hpt] at hall2
        simpa [hpt] using hall2
  | arr ts =>
    simp only [loadFromLegacyData] at h
    refine legacyFlat_noDangling defs ts (getEmptyBoardData defs) b1 h ?_
    intro q hq id hid
    dsimp only [getEmptyBoardData] at hq
    rw [emptyColumns_taskIds defs q hq] at hid
    exact absurd hid (List.not_mem_nil id)

theorem loadData_noDangling (defs : List ColumnDefinition) (b : BoardData)
    (ds : Option Dataset) (legacy : Option LegacyInput) (b1 : BoardData)
    (hb : noDangling b)
    (hok : ∀ p, legacy = some (.obj p) → bundleOk p = true)
    (h : loadData defs b ds legacy = some b1) : noDangling b1 := by
  unfold loadData at h
  by_cases havail : datasetAvailable ds = true
  · rw [if_pos havail] at h
    rcases hds : loadFromDataset defs b ds with _ | b2
    · rw [hds] at h
      exact Option.noConfusion h
    · rw [hds] at h
      rw [Option.bind_eq_bind, Option.some_bind] at h
      by_cases hz : b2.tasks.length = 0
      · rw [if_pos hz] at h
        exact samples_noDangling defs b1 h
      · rw [if_neg hz] at h
        simp only [Option.some_inj] at h
        rw [← h]
        exact loadFromDataset_noDangling defs b ds b2 hds
  · rw [if_neg havail] at h
    rcases legacy with _ | input
    · exact samples_noDangling defs b1 h
    · dsimp only at h
      exact loadFromLegacyData_noDangling defs b input b1 hb
        (fun p hp => hok p (by rw [hp])) h

/-- Operation guard for claim C7: object-shaped legacy loads must reference
only their own tasks (as every JSON bundle produced by serialising a valid
board does); every other operation is untouched. -/
def goodOp : Op → Bool
  | .load _ (some (.obj p)) => bundleOk p
  | _ => true

theorem stepOp_noDangling (s s' : CompState) (op : Op)
    (hb : noDangling s.board) (hgood : goodOp op = true)
    (hstep : stepOp s op = some s') : noDangling s'.board := by
  cases op with
  | load ds legacy =>
    simp only [stepOp] at hstep
    rcases Option.map_eq_some'.mp hstep with ⟨b1, hload, hs'⟩
    rw [← hs']
    refine loadData_noDangling defaultColumnDefinitions s.board ds legacy b1 hb ?_ hload
    intro p hp
    rw [hp] at hgood
    exact hgood
  | dragStart taskId colId =>
    simp only [stepOp, Option.some_inj] at hstep
    rw [← hstep]
    exact hb
  | dragEnd =>
    simp only [stepOp, Option.some_inj] at hstep
    rw [← hstep]
    exact hb
  | drop target =>
    simp only [stepOp] at hstep
    rcases hdrag : s.draggedTaskId with _ | tid
    · rw [hdrag] at hstep
      simp only [Option.some_inj] at hstep
      rw [← hstep]; exact hb
    · rw [hdrag] at hstep
      dsimp only at hstep
      by_cases htid : tid = ""
      · rw [if_pos htid] at hstep
        simp only [Option.some_inj] at hstep
        rw [← hstep]; exact hb
      · rw [if_neg htid] at hstep
        rcases hsrc : s.sourceColumnId with _ | srcc
        · rw [hsrc] at hstep
          simp only [Option.some_inj] at hstep
          rw [← hstep]; exact hb
        · rw [hsrc] at hstep
          dsimp only at hstep
          by_cases hsc : srcc = ""
          · rw [if_pos hsc] at hstep
            simp only [Option.some_inj] at hstep
            rw [← hstep]; exact hb
          · rw [if_neg hsc] at hstep
            rcases target with _ | tgtc
            · dsimp only at hstep
              simp only [Option.some_inj] at hstep
              rw [← hstep]; exact hb
            · dsimp only at hstep
              by_cases htc : tgtc = ""
              · rw [if_pos htc] at hstep
                simp only [Option.some_inj] at hstep
                rw [← hstep]; exact hb
              · rw [if_neg htc] at hstep
                by_cases heq : srcc = tgtc
                · rw [if_pos heq] at hstep
                  simp only [Option.some_inj] at hstep
                  rw [← hstep]; exact hb
                · rw [if_neg heq] at hstep
                  simp only [Option.some_inj] at hstep
                  rw [← hstep]
                  exact moveTask_noDangling tid srcc tgtc s.board s.lastUpdatedTask hb
  | move taskId srcId tgtId =>
    simp only [stepOp, Option.some_inj] at hstep
    rw [← hstep]
    exact moveTask_noDangling taskId srcId tgtId s.board s.lastUpdatedTask hb

/-- A legacy bundle whose columns reference a task id that its task map does
not define. -/
def danglingBundle : LegacyBundle :=
  { tasks := some [],
    columns := some
      [("done",
        { id := "done", title := "Done", taskIds := ["ghost"],
          statusValues := ["Done"] })],
    columnOrder := some ["done"] }

/-- The board produced by loading `danglingBundle` over the empty board. -/
def danglingBoard : BoardData :=
  { tasks := [],
    columns :=
      [("done",
        { id := "done", title := "Done", taskIds := ["ghost"],
          statusValues := ["Done"] })],
    columnOrder := ["done"] }

/-- Claim C7, counterexample.  A single legacy load (a full
`{tasks, columns, columnOrder}` bundle) starting from the empty board
produces a column listing `"ghost"` while the task map has no such key: the
spread `{ ...emptyBoard, ...parsedData }` adopts the bundle columns without
checking them against the task map. -/
theorem C7_counterexample :
    runOps initialState [Op.load none (some (.obj danglingBundle))] =
      some { initialState with board := danglingBoard } ∧
    (lookupM danglingBoard.columns "done").map Column.taskIds = some ["ghost"] ∧
    lookupM danglingBoard.tasks "ghost" = none ∧
    ¬ noDangling danglingBoard := by
  refine ⟨by decide, by decide, by decide, by decide⟩

/-- Claim C7 (amended): starting from the empty board, after any sequence of
loads (dataset loads, legacy bundles and flat task arrays) and moves, every
id in every column's task list exists in the task map — provided each
object-shaped legacy bundle only references task ids it itself defines
(without that condition a bundle can smuggle in dangling ids, see the
counterexample). -/
theorem C7_no_dangling (ops : List Op) (s : CompState)
    (hgood : ∀ op ∈ ops, goodOp op = true)
    (hrun : runOps initialState ops = some s) :
    noDangling s.board := by
  have hrunall : ∀ (ops' : List Op) (s0 sf : CompState), noDangling s0.board →
      (∀ op ∈ ops', goodOp op = true) → runOps s0 ops' = some sf →
      noDangling sf.board := by
    intro ops'
    induction ops' with
    | nil =>
      intro s0 sf h0 _ hr
      simp only [runOps, List.foldlM_nil, Option.pure_def, Option.some_inj] at hr
      rw [← hr]
      exact h0
    | cons op rest ih =>
      intro s0 sf h0 hg hr
      unfold runOps at hr
      rw [List.foldlM_cons] at hr
      rcases hstep : stepOp s0 op with _ | s1
      · rw [hstep] at hr
        exact Option.noConfusion hr
      · rw [hstep] at hr
        rw [Option.bind_eq_bind, Option.some_bind] at hr
        exact ih s1 sf
          (stepOp_noDangling s0 s1 op h0 (hg op (List.mem_cons_self op rest)) hstep)
          (fun o ho => hg o (List.mem_cons_of_mem op ho)) hr
  exact hrunall ops initialState s (by decide) hgood hrun

set_option maxRecDepth 4000 in
/-- Claim C7 (amended), witness: a dataset load (falling back to samples) is
dangling-free on a concrete run. -/
theorem C7_witness :
    noDangling ((runOps initialState
      [Op.load (some mockDataset) none]).getD initialState).board :=
  C7_no_dangling [Op.load (some mockDataset) none]
    ((runOps initialState [Op.load (some mockDataset) none]).getD initialState)
    (by decide) (by decide)

end Kanban
